import Mathlib

/-!
Shallow embedding of `piDhtBot.py` (the piDhtBot repository): the record
store with its statistics (`records` / `records.recordStat`), the record-file
parser (`readRecords`), shard enumeration (`listRecordFiles` / `getRecords`),
the plot time-range resolution performed in `plotCallback`, the command
dispatcher (`performCommand` / `plotCallback`), and the complaint rate
limiter of the DHT polling loop (`readDHT`).

Modelling conventions:
* Python `datetime.datetime` values are modelled by `DateTime`: a civil date
  `(year, month, day)` plus the microsecond of the day.  `datetime.timedelta`
  arithmetic is modelled by day-stepping (`predDay` / `succDay`) combined
  with microsecond borrows, and comparison is field-lexicographic, exactly as
  for Python datetimes.
* Python floats are modelled by `Val`: NaN, plus/minus infinity (the
  sentinels used by `recordStat.__init__`), or a finite rational.  `Val.ltb`
  copies IEEE `<`: any comparison with NaN is false.
* Strings are processed through their character lists (`String.data`); the
  helpers mirror `str.split()`, `str.rstrip`, `str.lower`, `str.startswith`.
-/

namespace PiDhtBot

/-! ### Calendar: model of `datetime.datetime` -/

/-- Microseconds in one day. -/
def microsPerDay : Nat := 86400000000

/-- Gregorian leap-year rule, as implemented by Python's `datetime`. -/
def isLeapYear (y : Int) : Bool := y % 4 == 0 && (y % 100 != 0 || y % 400 == 0)

/-- Number of days of month `m` (1-12) in year `y`. -/
def daysInMonth (y : Int) (m : Nat) : Nat :=
  if m = 2 then (if isLeapYear y then 29 else 28)
  else if m = 4 ∨ m = 6 ∨ m = 9 ∨ m = 11 then 30 else 31

/-- A civil date: year, month (1-12), day of month. -/
structure Date where
  y : Int
  m : Nat
  d : Nat
deriving DecidableEq

/-- Validity of a civil date (Python `datetime` also bounds the year to
1..9999; that bound is irrelevant to the properties proved here). -/
def Date.Valid (dt : Date) : Prop :=
  1 ≤ dt.m ∧ dt.m ≤ 12 ∧ 1 ≤ dt.d ∧ dt.d ≤ daysInMonth dt.y dt.m

instance (dt : Date) : Decidable dt.Valid := by
  unfold Date.Valid; infer_instance

/-- The calendar day before `dt`. -/
def predDay (dt : Date) : Date :=
  if 1 < dt.d then ⟨dt.y, dt.m, dt.d - 1⟩
  else if 1 < dt.m then ⟨dt.y, dt.m - 1, daysInMonth dt.y (dt.m - 1)⟩
  else ⟨dt.y - 1, 12, 31⟩

/-- The calendar day after `dt`. -/
def succDay (dt : Date) : Date :=
  if dt.d < daysInMonth dt.y dt.m then ⟨dt.y, dt.m, dt.d + 1⟩
  else if dt.m < 12 then ⟨dt.y, dt.m + 1, 1⟩
  else ⟨dt.y + 1, 1, 1⟩

/-- A point in time: civil date plus microsecond of the day. -/
structure DateTime where
  date : Date
  usod : Nat
deriving DecidableEq

/-- A valid `DateTime`: valid date and microsecond of day in range. -/
def DateTime.Valid (t : DateTime) : Prop := t.date.Valid ∧ t.usod < microsPerDay

instance (t : DateTime) : Decidable t.Valid := by
  unfold DateTime.Valid; infer_instance

/-- Subtract `u` microseconds, borrowing days through `predDay`. -/
def subMicros (u : Nat) (t : DateTime) : DateTime :=
  if u ≤ t.usod then ⟨t.date, t.usod - u⟩
  else
    let k := (u - t.usod + microsPerDay - 1) / microsPerDay
    ⟨predDay^[k] t.date, t.usod + k * microsPerDay - u⟩

/-- Add `u` microseconds, carrying days through `succDay`. -/
def addMicros (u : Nat) (t : DateTime) : DateTime :=
  ⟨succDay^[(t.usod + u) / microsPerDay] t.date, (t.usod + u) % microsPerDay⟩

/-- `t - datetime.timedelta(days=days, microseconds=micros)`.  A negative
total duration (possible for `timedelta(days=number - 1)` with `number = 0`)
adds time instead. -/
def subTimedelta (t : DateTime) (days : Int) (micros : Nat) : DateTime :=
  let net : Int := days * (microsPerDay : Int) + micros
  if 0 ≤ net then subMicros net.toNat t else addMicros (-net).toNat t

/-- `now.replace(hour=0, minute=0, second=0, microsecond=0)` (line 343). -/
def todayStart (now : DateTime) : DateTime := ⟨now.date, 0⟩

/-- Days since 1970-01-01 of a civil date (Howard Hinnant's `days_from_civil`
algorithm, as used to define `datetime.date.weekday`). -/
def daysFromCivil (dt : Date) : Int :=
  let y : Int := if dt.m ≤ 2 then dt.y - 1 else dt.y
  let era : Int := (if 0 ≤ y then y else y - 399) / 400
  let yoe : Int := y - era * 400
  let doy : Int := (153 * ((dt.m : Int) + (if 2 < dt.m then -3 else 9)) + 2) / 5
    + (dt.d : Int) - 1
  let doe : Int := yoe * 365 + yoe / 4 - yoe / 100 + doy
  era * 146097 + doe - 719468

/-- `datetime.date.weekday()`: Monday = 0 .. Sunday = 6 (1970-01-01 was a
Thursday, hence the offset 3). -/
def weekday (dt : Date) : Nat := ((daysFromCivil dt + 3) % 7).toNat

/-- Python `datetime` `<`: field-lexicographic comparison of dates. -/
def Date.ltb (a b : Date) : Bool :=
  decide (a.y < b.y ∨ (a.y = b.y ∧ (a.m < b.m ∨ (a.m = b.m ∧ a.d < b.d))))

/-- Python `datetime` `<`: field-lexicographic comparison. -/
def DateTime.ltb (a b : DateTime) : Bool :=
  Date.ltb a.date b.date || (decide (a.date = b.date) && decide (a.usod < b.usod))

/-- Python `datetime` `<=`. -/
def DateTime.leb (a b : DateTime) : Bool := DateTime.ltb a b || decide (a = b)

/-! ### Float values and record statistics (`piDhtBot.py` lines 25-73) -/

/-- Model of the Python floats this program handles: NaN (gap marker),
the infinities (statistics sentinels), or a finite value. -/
inductive Val where
  | nan : Val
  | negInf : Val
  | posInf : Val
  | fin : ℚ → Val
deriving DecidableEq

/-- IEEE `<` on `Val`: every comparison involving NaN is false. -/
def Val.ltb : Val → Val → Bool
  | .nan, _ => false
  | _, .nan => false
  | .negInf, .negInf => false
  | .negInf, _ => true
  | _, .negInf => false
  | .posInf, _ => false
  | _, .posInf => true
  | .fin a, .fin b => decide (a < b)

/-- Is this value finite? -/
def Val.isFin : Val → Bool
  | .fin _ => true
  | _ => false

/-- Finite or NaN (every value a sample of this program can carry). -/
def Val.finOrNaN : Val → Bool
  | .fin _ => true
  | .nan => true
  | _ => false

/-- `piDhtBot.record` (lines 25-30): a single sample. -/
structure record where
  ts : DateTime
  temp : Val
  hum : Val
deriving DecidableEq

/-- `records.recordStat` (lines 34-54): running min/max value with the
timestamp at which each occurred. -/
structure recordStat where
  minTs : Option DateTime
  maxTs : Option DateTime
  minValue : Val
  maxValue : Val
deriving DecidableEq

/-- `recordStat.__init__` (lines 36-40): `minValue = inf`, `maxValue = -inf`,
timestamps `None`. -/
def recordStat.init : recordStat := ⟨none, none, .posInf, .negInf⟩

/-- `recordStat.updateWithValue` (lines 42-49): overwrite min/max only on a
strict comparison.  `self.minValue > value` is IEEE `value < self.minValue`.
The second `if` reads `self.maxValue`, which the first block never wrote. -/
def recordStat.updateWithValue (s : recordStat) (ts : Option DateTime) (v : Val) :
    recordStat :=
  let s1 := if Val.ltb v s.minValue then { s with minValue := v, minTs := ts } else s
  if Val.ltb s1.maxValue v then { s1 with maxValue := v, maxTs := ts } else s1

/-- `recordStat.updateWithRecordStat` (lines 51-54): merge by feeding the
other tracker's stored min then max through `updateWithValue`. -/
def recordStat.updateWithRecordStat (s other : recordStat) : recordStat :=
  (s.updateWithValue other.minTs other.minValue).updateWithValue other.maxTs other.maxValue

/-- `piDhtBot.records` (lines 32-73): record list plus per-channel stats. -/
structure records where
  recordList : List record
  tempStat : recordStat
  humStat : recordStat
deriving DecidableEq

/-- `records.__init__` (lines 56-59). -/
def records.init : records := ⟨[], recordStat.init, recordStat.init⟩

/-- `records.addSingleRecord` (lines 61-66). -/
def records.addSingleRecord (rs : records) (r : record) : records :=
  { recordList := rs.recordList ++ [r]
    tempStat := rs.tempStat.updateWithValue (some r.ts) r.temp
    humStat := rs.humStat.updateWithValue (some r.ts) r.hum }

/-- `records.addRecordList` (lines 68-73). -/
def records.addRecordList (rs other : records) : records :=
  { recordList := rs.recordList ++ other.recordList
    tempStat := rs.tempStat.updateWithRecordStat other.tempStat
    humStat := rs.humStat.updateWithRecordStat other.humStat }

/-- Fold a list of records through `addSingleRecord` starting from the empty
`records` (how every `records` object of the program is built). -/
def buildRecords (l : List record) : records :=
  l.foldl records.addSingleRecord records.init

/-- Fold one channel's `(timestamp, value)` pairs through `updateWithValue`
starting from the initial statistics. -/
def statOf (l : List (DateTime × Val)) : recordStat :=
  l.foldl (fun s p => s.updateWithValue (some p.1) p.2) recordStat.init

/-! ### String helpers (on character lists) -/

/-- `str.split()` with no argument: split on runs of whitespace, discarding
empty pieces (leading/trailing whitespace produces nothing). -/
def splitWsCl (cs : List Char) : List (List Char) :=
  let rec go (cs : List Char) (cur : List Char) (acc : List (List Char)) :
      List (List Char) :=
    match cs with
    | [] => if cur.isEmpty then acc.reverse else (cur.reverse :: acc).reverse
    | c :: rest =>
      if c.isWhitespace then
        if cur.isEmpty then go rest [] acc else go rest [] (cur.reverse :: acc)
      else go rest (c :: cur) acc
  go cs [] []

/-- Split on every occurrence of the separator character (`str.split(sep)`
semantics: empty pieces are kept). -/
def splitOnCharCl (sep : Char) : List Char → List (List Char)
  | [] => [[]]
  | c :: rest =>
    let r := splitOnCharCl sep rest
    if c = sep then [] :: r
    else
      match r with
      | [] => [[c]]
      | h :: t => (c :: h) :: t

/-- Numeric value of a digit string (caller checks the digits). -/
def natValCl (cs : List Char) : Nat :=
  cs.foldl (fun acc c => acc * 10 + (c.toNat - 48)) 0

/-- Parse a non-empty all-digit string (what `int` receives from a
`[0-9]+` regex group). -/
def parseNatCl (cs : List Char) : Option Nat :=
  if cs.isEmpty then none
  else if cs.all Char.isDigit then some (natValCl cs)
  else none

/-- Parse an all-digit field of bounded length, the way `strptime` numeric
directives match 1 to `maxLen` digits. -/
def parseNatBounded (maxLen : Nat) (cs : List Char) : Option Nat :=
  if cs.isEmpty then none
  else if cs.length ≤ maxLen ∧ cs.all Char.isDigit then some (natValCl cs)
  else none

/-- Lexicographic `<` on character lists by code point: Python string
comparison, as used by `list.sort()` over file names. -/
def strLtCl : List Char → List Char → Bool
  | [], [] => false
  | [], _ :: _ => true
  | _ :: _, [] => false
  | a :: as, b :: bs =>
    if a.toNat < b.toNat then true
    else if b.toNat < a.toNat then false
    else strLtCl as bs

/-- Lexicographic `≤` on strings (total preorder used for sorting). -/
def strLe (a b : String) : Prop := !(strLtCl b.data a.data) = true

instance : DecidableRel strLe := fun _ _ =>
  inferInstanceAs (Decidable (_ = true))

/-! ### Row parsing (`readRecords`, lines 459-481) and formatting
(`addRecord`, lines 427-430) -/

/-- `float(...)` on a whitespace-free field, for the inputs this program
writes and reads: an optional sign followed by `nan`, `inf`/`infinity`
(case-insensitive) or a plain decimal numeral, possibly with one `.`.
Exponent, underscore and hexadecimal forms accepted by Python are outside
the modelled grammar (no row this program writes uses them). -/
def parseDecimalCl (cs : List Char) : Option ℚ :=
  match splitOnCharCl '.' cs with
  | [ip] => (parseNatCl ip).map (fun n => (n : ℚ))
  | [ip, fp] =>
    if ip.isEmpty && fp.isEmpty then none
    else if ip.all Char.isDigit && fp.all Char.isDigit then
      some ((natValCl ip : ℚ) + (natValCl fp : ℚ) / (10 : ℚ) ^ fp.length)
    else none
  | _ => none

/-- `float(...)` producing a `Val` (see `parseDecimalCl`). -/
def parseFloatCl (cs : List Char) : Option Val :=
  let neg : Bool := match cs with
    | '-' :: _ => true
    | _ => false
  let rest : List Char := match cs with
    | '-' :: r => r
    | '+' :: r => r
    | r => r
  let lower := rest.map Char.toLower
  if lower = "nan".data then some .nan
  else if lower = "inf".data ∨ lower = "infinity".data then
    some (if neg then .negInf else .posInf)
  else (parseDecimalCl rest).map (fun q => .fin (if neg then -q else q))

/-- `datetime.datetime.strptime('%s %s' % (date, time), '%Y-%m-%d %H:%M:%S')`:
split the two fields on `-` and `:`, read 1-4 digit year and 1-2 digit
month/day/hour/minute/second, and validate ranges exactly as constructing a
`datetime` does (month 1-12, day 1-daysInMonth, hour ≤ 23, minute/second
≤ 59, year ≥ 1). -/
def parseTimestamp (dateCs timeCs : List Char) : Option DateTime :=
  match splitOnCharCl '-' dateCs, splitOnCharCl ':' timeCs with
  | [ys, ms, ds], [hs, mins, ss] =>
    match parseNatBounded 4 ys, parseNatBounded 2 ms, parseNatBounded 2 ds,
        parseNatBounded 2 hs, parseNatBounded 2 mins, parseNatBounded 2 ss with
    | some y, some mo, some d, some h, some mi, some sec =>
      if 1 ≤ y ∧ 1 ≤ mo ∧ mo ≤ 12 ∧ 1 ≤ d ∧ d ≤ daysInMonth (y : Int) mo ∧
          h ≤ 23 ∧ mi ≤ 59 ∧ sec ≤ 59 then
        some ⟨⟨(y : Int), mo, d⟩, ((h * 60 + mi) * 60 + sec) * 1000000⟩
      else none
    | _, _, _, _, _, _ => none
  | _, _ => none

/-- One loop body of `readRecords` (lines 464-480) on a single line (the
line is given without its trailing newline; `rstrip('\n')` is immaterial
because `split()` drops trailing whitespace anyway).  Any failure — wrong
field count, bad timestamp, bad float — and any out-of-range timestamp
yields `none` (the Python `except`/`continue` paths). -/
def parseLine (line : String) (dateStart dateEnd : Option DateTime) : Option record :=
  match splitWsCl line.data with
  | [dateF, timeF, tempF, humF] =>
    match parseTimestamp dateF timeF with
    | none => none
    | some ts =>
      if dateStart.elim false (fun d => DateTime.ltb ts d) then none
      else if dateEnd.elim false (fun d => DateTime.ltb d ts) then none
      else
        match parseFloatCl tempF, parseFloatCl humF with
        | some t, some h => some ⟨ts, t, h⟩
        | _, _ => none
  | _ => none

/-- `readRecords` (lines 459-481): fold the shard's lines, adding each
successfully parsed in-range row, skipping the rest. -/
def readRecords (lines : List String) (dateStart dateEnd : Option DateTime) :
    records :=
  lines.foldl
    (fun recs line =>
      match parseLine line dateStart dateEnd with
      | some r => recs.addSingleRecord r
      | none => recs)
    records.init

/-- The character for a digit value below 10. -/
def digitChar (d : Nat) : Char := Char.ofNat (48 + d)

/-- Two-digit zero-padded rendering (`%02d`-style fields of the timestamp
format). -/
def pad2 (n : Nat) : List Char := [digitChar (n / 10 % 10), digitChar (n % 10)]

/-- Four-digit zero-padded rendering (`%Y`). -/
def pad4 (n : Nat) : List Char :=
  [digitChar (n / 1000 % 10), digitChar (n / 100 % 10),
   digitChar (n / 10 % 10), digitChar (n % 10)]

/-- `record.ts.strftime('%Y-%m-%d %H:%M:%S')`: second precision, dropping
the sub-second part of the timestamp. -/
def formatTimestamp (t : DateTime) : List Char :=
  let sod := t.usod / 1000000
  pad4 t.date.y.toNat ++ '-' :: pad2 t.date.m ++ '-' :: pad2 t.date.d ++
    ' ' :: pad2 (sod / 3600) ++ ':' :: pad2 (sod % 3600 / 60) ++
    ':' :: pad2 (sod % 60)

/-- Unbounded decimal rendering of a natural number. -/
def digitsCl (n : Nat) : List Char :=
  if n < 10 then [digitChar n]
  else digitsCl (n / 10) ++ [digitChar (n % 10)]
decreasing_by omega

/-- `'%.2f' % v`: `nan`/`inf`/`-inf` for the special values, otherwise the
value rounded to two decimals (ties modelled as round-half-up; the claims
never exercise a tie).  Gap markers are written as `nan`. -/
def formatValCl : Val → List Char
  | .nan => "nan".data
  | .posInf => "inf".data
  | .negInf => "-inf".data
  | .fin q =>
    let c : Int := round (q * 100)
    (if c < 0 then ['-'] else []) ++ digitsCl (c.natAbs / 100) ++
      '.' :: pad2 (c.natAbs % 100)

/-- `addRecord` (lines 427-430): the row text
`'%s %.2f %.2f' % (ts, temp, hum)` appended to the current shard. -/
def formatRecord (r : record) : String :=
  ⟨formatTimestamp r.ts ++ ' ' :: formatValCl r.temp ++ ' ' :: formatValCl r.hum⟩

/-! ### Shard enumeration and query (`listRecordFiles` / `getRecords`,
lines 432-457) -/

/-- `self.botName + '.rec'`: base name of the current record file. -/
def recordBaseName : String := "piDhtBot.rec"

/-- `listRecordFiles` (lines 443-457) applied to a directory listing: keep
names starting with the base name, drop the current record itself, sort
lexicographically, then always append the current record last.
`list.sort()` is a stable sort, as is `insertionSort`. -/
def listRecordFiles (dirListing : List String) : List String :=
  let recordFiles := dirListing.filter
    (fun n => List.isPrefixOf recordBaseName.data n.data && n ≠ recordBaseName)
  (List.insertionSort strLe recordFiles) ++ [recordBaseName]

/-- The stored file system: association of file name to its lines.  Reading
a listed name returns its content (names come from the listing itself). -/
def readFileLines (fs : List (String × List String)) (name : String) :
    List String :=
  match fs.find? (fun e => e.1 == name) with
  | some e => e.2
  | none => []

/-- The loop body of `getRecords` (lines 435-440): read one record file,
skip it if it contributes no record, otherwise merge it. -/
def getRecordsStep (fs : List (String × List String))
    (dateStart dateEnd : Option DateTime) (allRecords : records)
    (recordFile : String) : records :=
  let recs := readRecords (readFileLines fs recordFile) dateStart dateEnd
  if recs.recordList.length = 0 then allRecords
  else allRecords.addRecordList recs

/-- `getRecords` (lines 432-441): read every record file in enumeration
order, skip files contributing no record, and merge the rest with
`addRecordList`. -/
def getRecords (fs : List (String × List String))
    (dateStart dateEnd : Option DateTime) : records :=
  (listRecordFiles (fs.map Prod.fst)).foldl (getRecordsStep fs dateStart dateEnd)
    records.init

/-! ### Plot range resolution (`plotCallback`, lines 329-391) -/

/-- The regex `^([0-9]+)h$` (line 336). -/
def parseHoursTok (cs : List Char) : Option Nat :=
  match cs.getLast? with
  | some 'h' => parseNatCl cs.dropLast
  | _ => none

/-- The regex `^last ([0-9]+)d$` (line 346). -/
def parseLastDaysTok (cs : List Char) : Option Nat :=
  if List.isPrefixOf "last ".data cs then
    match (cs.drop 5).getLast? with
    | some 'd' => parseNatCl (cs.drop 5).dropLast
    | _ => none
  else none

/-- The range selection of `plotCallback` (lines 329-391): map the callback
payload to the `(dateStart, dateEnd)` pair handed to `plot`; `none` is the
`Unknown plot range` reply.  Mirrors the source branch for branch, including
`todayStart` and the `timedelta` arithmetic. -/
def resolveRange (data : String) (now : DateTime) :
    Option (Option DateTime × Option DateTime) :=
  if data = "all" then some (none, none)
  else
    match parseHoursTok data.data with
    | some number => some (some (subTimedelta now 0 (number * 3600000000)), none)
    | none =>
      let ts := todayStart now
      match parseLastDaysTok data.data with
      | some number => some (some (subTimedelta ts ((number : Int) - 1) 0), none)
      | none =>
        if data = "today" then some (some ts, none)
        else if data = "yesterday" then
          some (some (subTimedelta ts 1 0), some (subTimedelta ts 0 1))
        else if data = "this week" then
          some (some (subTimedelta ts (weekday now.date) 0), none)
        else if data = "last week" then
          some (some (subTimedelta ts ((weekday now.date : Int) + 7) 0),
            some (subTimedelta ts (weekday now.date) 1))
        else if data = "this month" then
          some (some (subTimedelta ts ((now.date.d : Int) - 1) 0), none)
        else if data = "last month" then
          let dateStart1 := subTimedelta ts (ts.date.d) 0
          let dateStart := subTimedelta dateStart1 ((dateStart1.date.d : Int) - 1) 0
          let dateEnd := subTimedelta ts ((ts.date.d : Int) - 1) 1
          some (some dateStart, some dateEnd)
        else if data = "this year" then
          some (some ⟨⟨ts.date.y, 1, 1⟩, ts.usod⟩, none)
        else if data = "last year" then
          some (some ⟨⟨ts.date.y - 1, 1, 1⟩, ts.usod⟩,
            some (subTimedelta ⟨⟨ts.date.y, 1, 1⟩, ts.usod⟩ 0 1))
        else none

/-! ### Command dispatch (`performCommand` lines 234-259, `plotCallback`
lines 319-391, `plot` lines 393-425), modelled as the list of externally
visible effects a handler invocation produces. -/

/-- An externally visible effect of a handler invocation. -/
inductive Effect where
  | logInfo : Effect
  | logWarning : Effect
  | replyText : String → Effect
  | replyMenu : Effect
  | replyShowRecord : record → Effect
  | answerCallback : Effect
  | replyPlotting : Option DateTime → Option DateTime → Effect
  | savePlotImage : List record → Effect
  | replyPhoto : DateTime → DateTime → recordStat → recordStat → Effect
  | deletePlotImage : Effect
deriving DecidableEq

/-- The fixed refusal reply sent to non-owners (line 242). -/
def refusalText : String := "I'm sorry, Dave. I'm afraid I can't do that."

/-- The `/help` (and `/start`) reply (lines 264-267). -/
def helpText : String :=
  "/show - Show last read data.\n/plot - Plot recorded data.\n/help - Show this help."

/-- `str.rstrip()`: drop trailing whitespace. -/
def rstripCl (cs : List Char) : List Char :=
  (cs.reverse.dropWhile Char.isWhitespace).reverse

/-- An inbound text message: opaque sender identity plus text. -/
structure TextMessage where
  fromUserId : Int
  text : String
deriving DecidableEq

/-- `performCommand` (lines 234-259): `None` messages are ignored; non-owner
senders are logged and get the fixed refusal, nothing else; owners get the
command dispatched on the lowercased, right-stripped text. -/
def performCommand (ownerIds : List Int) (message : Option TextMessage)
    (lastRecord : Option record) : List Effect :=
  match message with
  | none => []
  | some msg =>
    if msg.fromUserId ∉ ownerIds then [.logWarning, .replyText refusalText]
    else
      let cmd : String := ⟨rstripCl (msg.text.data.map Char.toLower)⟩
      Effect.logInfo ::
        (if cmd = "/start" then [.replyText helpText]
         else if cmd = "/show" then
           match lastRecord with
           | none => [.replyText "No data yet."]
           | some r => [.replyShowRecord r]
         else if cmd = "/plot" then [.replyMenu]
         else if cmd = "/help" then [.replyText helpText]
         else [.replyText "Unknown command.", .logWarning])

/-- `plot` (lines 393-425): announce the requested range, query the store,
reply `No data` on an empty result, otherwise render the records and reply
with the photo whose caption carries the covered span and the four extrema,
then delete the image. -/
def plot (fs : List (String × List String))
    (dateStart dateEnd : Option DateTime) : List Effect :=
  let header := [Effect.logInfo, Effect.replyPlotting dateStart dateEnd]
  let recs := getRecords fs dateStart dateEnd
  if recs.recordList.length = 0 then
    header ++ [.replyText "No data for this time range."]
  else
    match recs.recordList with
    | [] => header
    | r0 :: rest =>
      header ++
        [.savePlotImage (r0 :: rest),
         .replyPhoto r0.ts (rest.getLastD r0).ts recs.tempStat recs.humStat,
         .deletePlotImage]

/-- An inbound callback query: sender identity plus payload. -/
structure CallbackEvent where
  fromUserId : Int
  data : String
deriving DecidableEq

/-- `plotCallback` (lines 319-391): acknowledge the callback, then resolve
the payload and plot.  The source performs no owner check here — the sender
identity (`ownerIds`, `ev.fromUserId`) is never consulted. -/
def plotCallback (ownerIds : List Int) (ev : CallbackEvent)
    (fs : List (String × List String)) (now : DateTime) : List Effect :=
  Effect.answerCallback ::
    (match resolveRange ev.data now with
     | some (dateStart, dateEnd) => plot fs dateStart dateEnd
     | none => [.replyText ("Unknown plot range: " ++ ev.data)])

/-! ### The polling loop's complaint rate limiter (`readDHT`,
lines 536-546 and 580-583), with time as rational seconds. -/

/-- The loop state relevant to the complaint logic: the scheduled next read
deadline and the time of the last overshoot complaint. -/
structure DhtState where
  nextRead : ℚ
  lastComplain : ℚ
deriving DecidableEq

/-- Outcome of one read attempt in the loop body. -/
inductive ReadOutcome where
  | sensorError : ReadOutcome
  | incomplete : ReadOutcome
  | success : ℚ → ℚ → ReadOutcome
deriving DecidableEq

/-- Lines 540-541: complain only if `now` overshot `nextRead` by more than
`readInterval` and more than `60 * 5` seconds passed since the last
complaint. -/
def complainDue (readInterval : ℚ) (st : DhtState) (now : ℚ) : Bool :=
  decide (st.nextRead + readInterval < now) &&
    decide (60 * 5 < now - st.lastComplain)

/-- One iteration of the `while True` loop (lines 537-583) as far as the
complaint state is concerned: emit the warning plus gap marker (the returned
`Bool`) and stamp `lastComplain` when due; a failed or incomplete read
leaves `nextRead` unchanged (the `continue` paths), a successful read
advances it by `readInterval` (line 580). -/
def dhtStep (readInterval : ℚ) (st : DhtState) (now : ℚ) (outcome : ReadOutcome) :
    DhtState × Bool :=
  let p := if complainDue readInterval st now then
    ({ st with lastComplain := now }, true) else (st, false)
  match outcome with
  | .success _ _ => ({ p.1 with nextRead := p.1.nextRead + readInterval }, p.2)
  | _ => (p.1, p.2)

/-- Run the loop over a sequence of `(now, outcome)` iterations, collecting
the times at which a warning plus gap marker was emitted. -/
def dhtRun (readInterval : ℚ) (st : DhtState) :
    List (ℚ × ReadOutcome) → List ℚ
  | [] => []
  | (now, oc) :: rest =>
    let s := dhtStep readInterval st now oc
    if s.2 then now :: dhtRun readInterval s.1 rest
    else dhtRun readInterval s.1 rest

/-- Timestamps of the channel pairs are in chronological (non-decreasing)
order. -/
def Chron (l : List (DateTime × Val)) : Prop :=
  l.Pairwise (fun p q => DateTime.leb p.1 q.1 = true)

instance (l : List (DateTime × Val)) : Decidable (Chron l) := by
  unfold Chron; infer_instance

/-- Timestamps of the records are in chronological (non-decreasing) order. -/
def ChronRecords (l : List record) : Prop :=
  l.Pairwise (fun a b => DateTime.leb a.ts b.ts = true)

instance (l : List record) : Decidable (ChronRecords l) := by
  unfold ChronRecords; infer_instance

/-- Spec-side: `v` is the minimum over the finite values of the channel list
`l` and `t` is the earliest timestamp at which `v` occurs. -/
def IsEarliestMin (l : List (DateTime × Val)) (v : ℚ) (t : DateTime) : Prop :=
  (t, Val.fin v) ∈ l ∧
  (∀ p ∈ l, ∀ q : ℚ, p.2 = Val.fin q → v ≤ q) ∧
  (∀ p ∈ l, p.2 = Val.fin v → DateTime.leb t p.1 = true)

/-- Spec-side: `v` is the maximum over the finite values of the channel list
`l` and `t` is the earliest timestamp at which `v` occurs. -/
def IsEarliestMax (l : List (DateTime × Val)) (v : ℚ) (t : DateTime) : Prop :=
  (t, Val.fin v) ∈ l ∧
  (∀ p ∈ l, ∀ q : ℚ, p.2 = Val.fin q → q ≤ v) ∧
  (∀ p ∈ l, p.2 = Val.fin v → DateTime.leb t p.1 = true)

/-- Truncation of a timestamp to whole seconds (the storage format keeps
second precision only). -/
def truncToSecond (t : DateTime) : DateTime :=
  ⟨t.date, t.usod / 1000000 * 1000000⟩

/-- Spec-side (for C10): the statistics value produced by merging a
freshly-initialised per-shard statistics object into the accumulator:
`updateWithValue(None, inf)` overwrites the maximum and
`updateWithValue(None, -inf)` overwrites the minimum, leaving
`minValue = -inf`, `maxValue = +inf` and both timestamps `None`. -/
def degenerateStat : recordStat := ⟨none, none, Val.negInf, Val.posInf⟩

/-- Spec-side (for C8): the first day of the calendar month preceding the
month of `d`. -/
def prevMonthFirst (d : Date) : Date :=
  ⟨(if d.m = 1 then d.y - 1 else d.y), (if d.m = 1 then 12 else d.m - 1), 1⟩

/-- Spec-side (for C8): the last day of the calendar month preceding the
month of `d`. -/
def prevMonthLast (d : Date) : Date :=
  ⟨(if d.m = 1 then d.y - 1 else d.y), (if d.m = 1 then 12 else d.m - 1),
    daysInMonth (if d.m = 1 then d.y - 1 else d.y) (if d.m = 1 then 12 else d.m - 1)⟩

/-! ## Theorems -/

/-! ### C9: the complaint rate limiter -/

/-- Helper: the complaint timestamp after one step. -/
theorem dhtStep_lastComplain (ri : ℚ) (st : DhtState) (now : ℚ) (oc : ReadOutcome) :
    (dhtStep ri st now oc).1.lastComplain =
      (if complainDue ri st now then now else st.lastComplain) := by
  cases oc <;> by_cases h : complainDue ri st now = true <;> simp [dhtStep, h]

/-- Helper: a step emits the warning/gap marker exactly when the complaint
condition holds. -/
theorem dhtStep_emits (ri : ℚ) (st : DhtState) (now : ℚ) (oc : ReadOutcome) :
    (dhtStep ri st now oc).2 = complainDue ri st now := by
  cases oc <;> by_cases h : complainDue ri st now = true <;> simp [dhtStep, h]

/-- Helper: along any run, consecutive emission times (seeded with the
initial `lastComplain`) are more than `60 * 5` seconds apart. -/
theorem dhtRun_chain (ri : ℚ) (l : List (ℚ × ReadOutcome)) :
    ∀ st : DhtState,
      List.Chain' (fun a b => a + 60 * 5 < b) (st.lastComplain :: dhtRun ri st l) := by
  induction l with
  | nil => intro st; simp [dhtRun]
  | cons p rest ih =>
    intro st
    obtain ⟨now, oc⟩ := p
    have h := ih (dhtStep ri st now oc).1
    by_cases hdue : complainDue ri st now = true
    · have hrun : dhtRun ri st ((now, oc) :: rest) =
          now :: dhtRun ri (dhtStep ri st now oc).1 rest := by
        simp [dhtRun, dhtStep_emits, hdue]
      rw [hrun]
      rw [dhtStep_lastComplain, if_pos hdue] at h
      refine List.chain'_cons.mpr ⟨?_, h⟩
      simp only [complainDue, Bool.and_eq_true, decide_eq_true_eq] at hdue
      linarith [hdue.2]
    · have hrun : dhtRun ri st ((now, oc) :: rest) =
          dhtRun ri (dhtStep ri st now oc).1 rest := by
        simp [dhtRun, dhtStep_emits, hdue]
      rw [hrun]
      rwa [dhtStep_lastComplain, if_neg hdue] at h

/-- C9: the "could not read within time" warning together with its NaN gap
marker is emitted in an iteration exactly when `now` overshot `nextRead` by
more than `readInterval` and more than 5 minutes passed since the previous
complaint; consequently, along any run of loop iterations the emission
times are pairwise separated by more than 5 minutes — never one per tick. -/
theorem c9_gap_warning_rate_limited (readInterval : ℚ) (st : DhtState)
    (l : List (ℚ × ReadOutcome)) :
    (∀ (st' : DhtState) (now : ℚ) (oc : ReadOutcome),
      (dhtStep readInterval st' now oc).2 = true ↔
        (st'.nextRead + readInterval < now ∧
          60 * 5 < now - st'.lastComplain)) ∧
    List.Chain' (fun a b => a + 60 * 5 < b)
      (st.lastComplain :: dhtRun readInterval st l) := by
  constructor
  · intro st' now oc
    rw [dhtStep_emits]
    simp [complainDue]
  · exact dhtRun_chain readInterval l st

/-! ### C3: authorization of inbound events -/

/-- C3 counterexample: a range-selection callback from a sender outside the
allow-list (owner list `[1]`, sender `2`) is fully processed — the callback
is answered, the range resolved and the store queried — instead of being
answered with the fixed refusal. -/
theorem c3_callback_unauthorized_processed_cex :
    plotCallback [1] ⟨2, "today"⟩ [] ⟨⟨2024, 3, 15⟩, 0⟩ =
      [Effect.answerCallback, Effect.logInfo,
       Effect.replyPlotting (some ⟨⟨2024, 3, 15⟩, 0⟩) none,
       Effect.replyText "No data for this time range."] ∧
    Effect.replyText refusalText ∉
      plotCallback [1] ⟨2, "today"⟩ [] ⟨⟨2024, 3, 15⟩, 0⟩ := by
  constructor
  · rfl
  · decide

/-- C3 amended: a text command from a sender outside the allow-list gets
exactly the warning log plus the fixed refusal reply — no command dispatch,
no data access, regardless of the text and of the bot state — but a
range-selection callback is processed identically for every sender and
every allow-list: `plotCallback` never consults either. -/
theorem c3_text_refused_callback_unchecked (ownerIds : List Int)
    (msg : TextMessage) (lastRecord : Option record)
    (h : msg.fromUserId ∉ ownerIds) :
    performCommand ownerIds (some msg) lastRecord =
      [.logWarning, .replyText refusalText] ∧
    ∀ (ownerIds' : List Int) (sender sender' : Int) (data : String)
      (fs : List (String × List String)) (now : DateTime),
      plotCallback ownerIds ⟨sender, data⟩ fs now =
        plotCallback ownerIds' ⟨sender', data⟩ fs now := by
  refine ⟨?_, fun _ _ _ _ _ _ => rfl⟩
  simp [performCommand, h]

/-- C3 witness: the amended theorem at owner list `[1]`, sender `2`,
command `/show`. -/
theorem c3_text_refused_callback_unchecked_witness :
    ((2 : Int) ∉ [(1 : Int)]) ∧
    performCommand [1] (some ⟨2, "/show"⟩) none =
      [.logWarning, .replyText refusalText] := by
  refine ⟨by decide, ?_⟩
  exact (c3_text_refused_callback_unchecked [1] ⟨2, "/show"⟩ none (by decide)).1

/-! ### Calendar lemmas for C7 and C8 -/

/-- Every month has at least one day. -/
theorem daysInMonth_pos (y : Int) (m : Nat) : 1 ≤ daysInMonth y m := by
  unfold daysInMonth
  split_ifs <;> omega

/-- The previous day of a valid date is valid. -/
theorem predDay_valid (d : Date) (h : d.Valid) : (predDay d).Valid := by
  obtain ⟨y, m, dd⟩ := d
  obtain ⟨h1, h2, h3, h4⟩ := h
  simp only at h1 h2 h3 h4
  unfold predDay
  split_ifs with hdd hm
  · simp only at hdd
    exact ⟨h1, h2, by simp; omega, by simp; omega⟩
  · simp only at hdd hm
    exact ⟨by simp; omega, by simp; omega, by simpa using daysInMonth_pos y (m - 1), by simp⟩
  · refine ⟨by simp, by simp, by simp, ?_⟩
    show (31 : Nat) ≤ daysInMonth (y - 1) 12
    norm_num [daysInMonth]

/-- Iterated previous days of a valid date are valid. -/
theorem predDay_iterate_valid (d : Date) (h : d.Valid) (n : Nat) :
    (predDay^[n] d).Valid := by
  induction n with
  | zero => simpa using h
  | succ k ih =>
    rw [Function.iterate_succ_apply']
    exact predDay_valid _ ih

/-- `succDay` undoes `predDay` on valid dates. -/
theorem succDay_predDay (d : Date) (h : d.Valid) : succDay (predDay d) = d := by
  obtain ⟨y, m, dd⟩ := d
  obtain ⟨h1, h2, h3, h4⟩ := h
  simp only at h1 h2 h3 h4
  unfold predDay
  split_ifs with hdd hm
  · simp only at hdd ⊢
    unfold succDay
    rw [if_pos (by simp; omega)]
    simp
    omega
  · simp only at hdd hm ⊢
    unfold succDay
    rw [if_neg (by simp)]
    rw [if_pos (by simp; omega)]
    simp
    omega
  · simp only at hdd hm ⊢
    have hm1 : m = 1 := by omega
    have hdd1 : dd = 1 := by omega
    unfold succDay
    rw [if_neg (by norm_num [daysInMonth])]
    rw [if_neg (by simp)]
    simp [hm1, hdd1]

/-- Stepping back `k` days inside a month, from day `k + 1` to day 1. -/
theorem predDay_iterate_within (y : Int) (m : Nat) :
    ∀ k : Nat, predDay^[k] ⟨y, m, k + 1⟩ = ⟨y, m, 1⟩ := by
  intro k
  induction k with
  | zero => rfl
  | succ n ih =>
    rw [Function.iterate_succ_apply]
    have hstep : predDay ⟨y, m, n + 2⟩ = ⟨y, m, n + 1⟩ := by
      unfold predDay
      rw [if_pos (by simp)]
      simp
    rw [hstep, ih]

/-- `predDay` from the first of a month is the last day of the previous
month. -/
theorem predDay_first_of_month (d : Date) (h : d.Valid) :
    predDay ⟨d.y, d.m, 1⟩ = prevMonthLast d := by
  unfold prevMonthLast
  obtain ⟨h1, h2, h3, h4⟩ := h
  unfold predDay
  rw [if_neg (by simp)]
  by_cases hm : d.m = 1
  · rw [if_neg (by simp; omega)]
    simp [hm]
    norm_num [daysInMonth]
  · rw [if_pos (by simp; omega)]
    simp [hm]

/-- `subTimedelta` by a natural number of days plus microseconds is a plain
microsecond subtraction. -/
theorem subTimedelta_ofNat (t : DateTime) (w micros : Nat) :
    subTimedelta t (w : Int) micros = subMicros (w * microsPerDay + micros) t := by
  unfold subTimedelta
  rw [if_pos (by positivity)]
  have harg : ((w : Int) * (microsPerDay : Int) + (micros : Nat)).toNat =
      w * microsPerDay + micros := by
    simp only [microsPerDay]
    omega
  rw [harg]

/-- Subtracting a whole number of days from a midnight. -/
theorem subMicros_days (d : Date) (w : Nat) :
    subMicros (w * microsPerDay) ⟨d, 0⟩ = ⟨predDay^[w] d, 0⟩ := by
  cases w with
  | zero => simp [subMicros]
  | succ n =>
    unfold subMicros
    rw [if_neg (by simp [microsPerDay])]
    have hk : ((n + 1) * microsPerDay - 0 + microsPerDay - 1) / microsPerDay = n + 1 := by
      simp only [microsPerDay]
      omega
    rw [hk]
    simp only [microsPerDay]
    congr 1
    omega

/-- Subtracting a whole number of days plus one microsecond from a
midnight. -/
theorem subMicros_days_one (d : Date) (w : Nat) :
    subMicros (w * microsPerDay + 1) ⟨d, 0⟩ =
      ⟨predDay^[w + 1] d, microsPerDay - 1⟩ := by
  unfold subMicros
  rw [if_neg (by simp [microsPerDay])]
  have hk : (w * microsPerDay + 1 - 0 + microsPerDay - 1) / microsPerDay = w + 1 := by
    simp only [microsPerDay]
    omega
  rw [hk]
  simp only [microsPerDay]
  congr 1
  omega

/-- Adding one microsecond to the last microsecond of a day. -/
theorem addMicros_one_last (d : Date) :
    addMicros 1 ⟨d, microsPerDay - 1⟩ = ⟨succDay d, 0⟩ := by
  unfold addMicros
  have h1 : (microsPerDay - 1 + 1) / microsPerDay = 1 := by
    simp [microsPerDay]
  have h2 : (microsPerDay - 1 + 1) % microsPerDay = 0 := by
    simp [microsPerDay]
  rw [h1, h2]
  rfl

/-- C7: for every valid reference time `now`, the resolved `yesterday` range
ends one microsecond before the resolved `today` range starts, and the
resolved `last week` range ends one microsecond before the resolved
`this week` range starts. -/
theorem c7_adjacent_ranges (now : DateTime) (h : now.Valid) :
    ∃ ys ye ts wls wle ws,
      resolveRange "yesterday" now = some (some ys, some ye) ∧
      resolveRange "today" now = some (some ts, none) ∧
      addMicros 1 ye = ts ∧
      resolveRange "last week" now = some (some wls, some wle) ∧
      resolveRange "this week" now = some (some ws, none) ∧
      addMicros 1 wle = ws := by
  refine ⟨_, _, _, _, _, _, rfl, rfl, ?_, rfl, rfl, ?_⟩
  · have h1 : subTimedelta (todayStart now) 0 1 = ⟨predDay now.date, microsPerDay - 1⟩ := by
      rw [show (0 : Int) = ((0 : Nat) : Int) from rfl, subTimedelta_ofNat]
      simpa using subMicros_days_one now.date 0
    rw [h1, addMicros_one_last, succDay_predDay _ h.1]
    rfl
  · have h1 : subTimedelta (todayStart now) (weekday now.date) 1 =
        ⟨predDay^[weekday now.date + 1] now.date, microsPerDay - 1⟩ := by
      rw [subTimedelta_ofNat]
      exact subMicros_days_one now.date (weekday now.date)
    have h2 : subTimedelta (todayStart now) (weekday now.date) 0 =
        ⟨predDay^[weekday now.date] now.date, 0⟩ := by
      rw [subTimedelta_ofNat]
      simpa using subMicros_days now.date (weekday now.date)
    rw [h1, h2, addMicros_one_last, Function.iterate_succ_apply',
      succDay_predDay _ (predDay_iterate_valid now.date h.1 _)]

/-- C7 witness: the theorem applied at 2024-03-15 12:00:00. -/
theorem c7_adjacent_ranges_witness :
    (DateTime.Valid ⟨⟨2024, 3, 15⟩, 43200000000⟩) ∧
    (∃ ys ye ts wls wle ws,
      resolveRange "yesterday" ⟨⟨2024, 3, 15⟩, 43200000000⟩ = some (some ys, some ye) ∧
      resolveRange "today" ⟨⟨2024, 3, 15⟩, 43200000000⟩ = some (some ts, none) ∧
      addMicros 1 ye = ts ∧
      resolveRange "last week" ⟨⟨2024, 3, 15⟩, 43200000000⟩ = some (some wls, some wle) ∧
      resolveRange "this week" ⟨⟨2024, 3, 15⟩, 43200000000⟩ = some (some ws, none) ∧
      addMicros 1 wle = ws) :=
  ⟨by decide, c7_adjacent_ranges ⟨⟨2024, 3, 15⟩, 43200000000⟩ (by decide)⟩

/-- Day-of-month-many predecessor steps land on the last day of the
previous month. -/
theorem predDay_iterate_day (d : Date) (h : d.Valid) :
    predDay^[d.d] d = prevMonthLast d := by
  obtain ⟨y, m, dd⟩ := d
  obtain ⟨h1, h2, h3, h4⟩ := h
  simp only at h1 h2 h3 h4
  have h5 : predDay^[dd - 1] (⟨y, m, dd⟩ : Date) = ⟨y, m, 1⟩ := by
    have h6 := predDay_iterate_within y m (dd - 1)
    rwa [show dd - 1 + 1 = dd from by omega] at h6
  calc predDay^[dd] (⟨y, m, dd⟩ : Date)
      = predDay^[dd - 1 + 1] ⟨y, m, dd⟩ := by rw [show dd - 1 + 1 = dd from by omega]
    _ = predDay (predDay^[dd - 1] ⟨y, m, dd⟩) := Function.iterate_succ_apply' _ _ _
    _ = predDay ⟨y, m, 1⟩ := by rw [h5]
    _ = prevMonthLast ⟨y, m, dd⟩ := predDay_first_of_month ⟨y, m, dd⟩ ⟨h1, h2, h3, h4⟩

/-- C8: for every valid reference time `now` — in particular whatever the
length of the previous month and also across a year boundary — the resolved
`last month` range starts at midnight on the first day of the previous
calendar month and ends on the last microsecond of the last day of the
previous calendar month. -/
theorem c8_last_month_range (now : DateTime) (h : now.Valid) :
    resolveRange "last month" now =
      some (some ⟨prevMonthFirst now.date, 0⟩,
        some ⟨prevMonthLast now.date, microsPerDay - 1⟩) := by
  have hv := h.1
  have h3 : 1 ≤ now.date.d := hv.2.2.1
  have hexp : resolveRange "last month" now =
      some (some (subTimedelta (subTimedelta ⟨now.date, 0⟩ (now.date.d : Int) 0)
        (((subTimedelta ⟨now.date, 0⟩ (now.date.d : Int) 0).date.d : Int) - 1) 0),
        some (subTimedelta ⟨now.date, 0⟩ ((now.date.d : Int) - 1) 1)) := rfl
  have hds1 : subTimedelta ⟨now.date, 0⟩ (now.date.d : Int) 0 =
      ⟨prevMonthLast now.date, 0⟩ := by
    rw [subTimedelta_ofNat, Nat.add_zero, subMicros_days,
      predDay_iterate_day now.date hv]
  have hDpos : 1 ≤ (prevMonthLast now.date).d := daysInMonth_pos _ _
  have hds2 : subTimedelta ⟨prevMonthLast now.date, 0⟩
      (((prevMonthLast now.date).d : Int) - 1) 0 = ⟨prevMonthFirst now.date, 0⟩ := by
    rw [show (((prevMonthLast now.date).d : Int) - 1) =
        (((prevMonthLast now.date).d - 1 : Nat) : Int) from by omega]
    rw [subTimedelta_ofNat, Nat.add_zero, subMicros_days]
    congr 1
    have h8 := predDay_iterate_within
      (if now.date.m = 1 then now.date.y - 1 else now.date.y)
      (if now.date.m = 1 then 12 else now.date.m - 1)
      ((prevMonthLast now.date).d - 1)
    rw [show (prevMonthLast now.date).d - 1 + 1 = (prevMonthLast now.date).d from
      by omega] at h8
    exact h8
  have hde : subTimedelta ⟨now.date, 0⟩ ((now.date.d : Int) - 1) 1 =
      ⟨prevMonthLast now.date, microsPerDay - 1⟩ := by
    rw [show ((now.date.d : Int) - 1) = ((now.date.d - 1 : Nat) : Int) from by omega]
    rw [subTimedelta_ofNat, subMicros_days_one]
    rw [show now.date.d - 1 + 1 = now.date.d from by omega]
    rw [predDay_iterate_day now.date hv]
  rw [hexp, hds1]
  dsimp only
  rw [hds2, hde]

/-- C8 witness: the theorem applied at 2024-03-15 12:00:00 (previous month
February of a leap year, 29 days). -/
theorem c8_last_month_range_witness :
    (⟨⟨2024, 3, 15⟩, 43200000000⟩ : DateTime).Valid ∧
    resolveRange "last month" ⟨⟨2024, 3, 15⟩, 43200000000⟩ =
      some (some ⟨prevMonthFirst ⟨2024, 3, 15⟩, 0⟩,
        some ⟨prevMonthLast ⟨2024, 3, 15⟩, microsPerDay - 1⟩) :=
  ⟨by decide, c8_last_month_range ⟨⟨2024, 3, 15⟩, 43200000000⟩ (by decide)⟩

/-! ### Statistics lemmas (towards C5, C1, C6, C10) -/

/-- Updating with NaN never changes a tracker: both IEEE comparisons are
false. -/
theorem updateWithValue_nan (s : recordStat) (ts : Option DateTime) :
    s.updateWithValue ts Val.nan = s := by
  unfold recordStat.updateWithValue
  have h1 : Val.ltb Val.nan s.minValue = false := by cases s.minValue <;> rfl
  have h2 : Val.ltb s.maxValue Val.nan = false := by cases s.maxValue <;> rfl
  simp [h1, h2]

/-- `updateWithValue` as nested conditionals (the second `if` of the source
reads `maxValue`, which the first block never modified). -/
theorem updateWithValue_eq (s : recordStat) (ts : Option DateTime) (v : Val) :
    s.updateWithValue ts v =
      if Val.ltb v s.minValue then
        (if Val.ltb s.maxValue v then ⟨ts, ts, v, v⟩ else ⟨ts, s.maxTs, v, s.maxValue⟩)
      else
        (if Val.ltb s.maxValue v then ⟨s.minTs, ts, s.minValue, v⟩ else s) := by
  unfold recordStat.updateWithValue
  by_cases h1 : Val.ltb v s.minValue = true <;>
    by_cases h2 : Val.ltb s.maxValue v = true <;> simp [h1, h2]

/-- One fold step of `statOf` at the end of the list. -/
theorem statOf_concat (l : List (DateTime × Val)) (p : DateTime × Val) :
    statOf (l ++ [p]) = (statOf l).updateWithValue (some p.1) p.2 := by
  simp [statOf]

/-- A list of NaN values leaves the statistics at their initial value. -/
theorem statOf_all_nan (l : List (DateTime × Val)) (h : ∀ p ∈ l, p.2 = Val.nan) :
    statOf l = recordStat.init := by
  induction l using List.reverseRecOn with
  | nil => rfl
  | append_singleton l p ih =>
    rw [statOf_concat, ih (fun q hq => h q (List.mem_append_left _ hq)),
      h p (List.mem_append_right _ (by simp))]
    exact updateWithValue_nan _ _

/-- Reflexivity of the datetime order. -/
theorem DateTime.leb_refl (t : DateTime) : DateTime.leb t t = true := by
  simp [DateTime.leb]

/-- Antisymmetry of the datetime order. -/
theorem DateTime.leb_antisymm (a b : DateTime) (h1 : DateTime.leb a b = true)
    (h2 : DateTime.leb b a = true) : a = b := by
  obtain ⟨⟨ay, am, ad⟩, au⟩ := a
  obtain ⟨⟨yb, bm, bd⟩, bu⟩ := b
  simp only [DateTime.leb, DateTime.ltb, Date.ltb, Bool.or_eq_true, Bool.and_eq_true,
    decide_eq_true_eq, DateTime.mk.injEq, Date.mk.injEq] at h1 h2 ⊢
  omega

/-- The characterisation of `statOf`: over a chronologically ordered list of
finite-or-NaN values, an all-NaN list leaves the initial statistics, while
the presence of any finite value makes the four fields the minimum/maximum
of the finite values, each stamped with the earliest timestamp achieving
it. -/
theorem statOf_spec : ∀ (l : List (DateTime × Val)), Chron l →
    (∀ p ∈ l, p.2.finOrNaN = true) →
    ((∀ p ∈ l, p.2 = Val.nan) → statOf l = recordStat.init) ∧
    (∀ p0 ∈ l, ∀ q0 : ℚ, p0.2 = Val.fin q0 →
      ∃ vmn tmn vmx tmx,
        statOf l = ⟨some tmn, some tmx, Val.fin vmn, Val.fin vmx⟩ ∧
        IsEarliestMin l vmn tmn ∧ IsEarliestMax l vmx tmx) := by
  intro l
  induction l using List.reverseRecOn with
  | nil => exact fun _ _ => ⟨fun _ => rfl, by simp⟩
  | append_singleton l p ih =>
    intro hord hfin
    obtain ⟨pt, pv⟩ := p
    rw [Chron, List.pairwise_append] at hord
    obtain ⟨hordl, -, hlp⟩ := hord
    have hlp' : ∀ a ∈ l, DateTime.leb a.1 pt = true :=
      fun a ha => hlp a ha (pt, pv) (by simp)
    have hfinl : ∀ x ∈ l, x.2.finOrNaN = true :=
      fun x hx => hfin x (List.mem_append_left _ hx)
    have hfinp : pv.finOrNaN = true := hfin (pt, pv) (List.mem_append_right _ (by simp))
    obtain ⟨ihnan, ihfin⟩ := ih hordl hfinl
    constructor
    · intro hall
      rw [statOf_concat, ihnan (fun x hx => hall x (List.mem_append_left _ hx))]
      have hpn : pv = Val.nan := hall (pt, pv) (List.mem_append_right _ (by simp))
      have : ((pt, pv) : DateTime × Val).2 = Val.nan := hpn
      rw [this]
      exact updateWithValue_nan _ _
    · intro p0 hp0 q0 hq0
      rw [statOf_concat]
      cases hpv : pv with
      | negInf => rw [hpv] at hfinp; simp [Val.finOrNaN] at hfinp
      | posInf => rw [hpv] at hfinp; simp [Val.finOrNaN] at hfinp
      | nan =>
        rw [show ((pt, Val.nan) : DateTime × Val).2 = Val.nan from rfl,
          updateWithValue_nan]
        have hp0l : p0 ∈ l := by
          rcases List.mem_append.mp hp0 with h | h
          · exact h
          · exfalso
            simp only [List.mem_singleton] at h
            rw [h] at hq0
            have hq0' : pv = Val.fin q0 := hq0
            rw [hpv] at hq0'
            exact Val.noConfusion hq0'
        obtain ⟨vmn, tmn, vmx, tmx, hstat, hmin, hmax⟩ := ihfin p0 hp0l q0 hq0
        refine ⟨vmn, tmn, vmx, tmx, hstat, ⟨List.mem_append_left _ hmin.1, ?_, ?_⟩,
          ⟨List.mem_append_left _ hmax.1, ?_, ?_⟩⟩
        · intro y hy qq hqq
          rcases List.mem_append.mp hy with h | h
          · exact hmin.2.1 y h qq hqq
          · simp only [List.mem_singleton] at h
            rw [h] at hqq
            exact Val.noConfusion hqq
        · intro y hy hqq
          rcases List.mem_append.mp hy with h | h
          · exact hmin.2.2 y h hqq
          · simp only [List.mem_singleton] at h
            rw [h] at hqq
            exact Val.noConfusion hqq
        · intro y hy qq hqq
          rcases List.mem_append.mp hy with h | h
          · exact hmax.2.1 y h qq hqq
          · simp only [List.mem_singleton] at h
            rw [h] at hqq
            exact Val.noConfusion hqq
        · intro y hy hqq
          rcases List.mem_append.mp hy with h | h
          · exact hmax.2.2 y h hqq
          · simp only [List.mem_singleton] at h
            rw [h] at hqq
            exact Val.noConfusion hqq
      | fin q =>
        have hmemp : ((pt, Val.fin q) : DateTime × Val) ∈ l ++ [(pt, Val.fin q)] :=
          List.mem_append_right _ (by simp)
        by_cases hallnan : ∀ x ∈ l, x.2 = Val.nan
        · rw [ihnan hallnan]
          have hupd : recordStat.init.updateWithValue (some pt) (Val.fin q) =
              ⟨some pt, some pt, Val.fin q, Val.fin q⟩ := by
            rw [updateWithValue_eq]
            simp [recordStat.init, Val.ltb]
          rw [show recordStat.init.updateWithValue (some ((pt, Val.fin q) : DateTime × Val).1)
              ((pt, Val.fin q) : DateTime × Val).2 =
              recordStat.init.updateWithValue (some pt) (Val.fin q) from rfl, hupd]
          refine ⟨q, pt, q, pt, rfl, ⟨hmemp, ?_, ?_⟩, ⟨hmemp, ?_, ?_⟩⟩
          · intro y hy qq hqq
            rcases List.mem_append.mp hy with h | h
            · rw [hallnan y h] at hqq; exact Val.noConfusion hqq
            · simp only [List.mem_singleton] at h
              rw [h] at hqq
              have hinj := Val.fin.inj hqq
              subst hinj
              first
              | exact le_refl q
              | exact not_lt.mp hc1
              | exact not_lt.mp hc2
          · intro y hy hqq
            rcases List.mem_append.mp hy with h | h
            · rw [hallnan y h] at hqq; exact Val.noConfusion hqq
            · simp only [List.mem_singleton] at h
              rw [h]
              exact DateTime.leb_refl pt
          · intro y hy qq hqq
            rcases List.mem_append.mp hy with h | h
            · rw [hallnan y h] at hqq; exact Val.noConfusion hqq
            · simp only [List.mem_singleton] at h
              rw [h] at hqq
              have hinj := Val.fin.inj hqq
              subst hinj
              first
              | exact le_refl q
              | exact not_lt.mp hc1
              | exact not_lt.mp hc2
          · intro y hy hqq
            rcases List.mem_append.mp hy with h | h
            · rw [hallnan y h] at hqq; exact Val.noConfusion hqq
            · simp only [List.mem_singleton] at h
              rw [h]
              exact DateTime.leb_refl pt
        · push_neg at hallnan
          obtain ⟨x, hx, hxnan⟩ := hallnan
          have hxf : ∃ qx : ℚ, x.2 = Val.fin qx := by
            have hfx := hfinl x hx
            cases hv : x.2 with
            | nan => exact absurd hv hxnan
            | negInf => rw [hv] at hfx; simp [Val.finOrNaN] at hfx
            | posInf => rw [hv] at hfx; simp [Val.finOrNaN] at hfx
            | fin qx => exact ⟨qx, rfl⟩
          obtain ⟨qx, hqx⟩ := hxf
          obtain ⟨vmn, tmn, vmx, tmx, hstat, hmin, hmax⟩ := ihfin x hx qx hqx
          have hvv : vmn ≤ vmx := hmin.2.1 _ hmax.1 _ rfl
          rw [show (some ((pt, Val.fin q) : DateTime × Val).1) = some pt from rfl,
            show ((pt, Val.fin q) : DateTime × Val).2 = Val.fin q from rfl,
            hstat, updateWithValue_eq]
          simp only [Val.ltb, decide_eq_true_eq]
          by_cases hc1 : q < vmn
          · by_cases hc2 : vmx < q
            · exact absurd (lt_trans (lt_of_lt_of_le hc1 hvv) hc2) (lt_irrefl q)
            · rw [if_pos hc1, if_neg hc2]
              refine ⟨q, pt, vmx, tmx, rfl, ⟨hmemp, ?_, ?_⟩,
                ⟨List.mem_append_left _ hmax.1, ?_, ?_⟩⟩
              · intro y hy qq hqq
                rcases List.mem_append.mp hy with h | h
                · exact le_trans (le_of_lt hc1) (hmin.2.1 y h qq hqq)
                · simp only [List.mem_singleton] at h
                  rw [h] at hqq
                  have hinj := Val.fin.inj hqq
                  subst hinj
                  first
                  | exact le_refl q
                  | exact not_lt.mp hc1
                  | exact not_lt.mp hc2
              · intro y hy hqq
                rcases List.mem_append.mp hy with h | h
                · exact absurd (hmin.2.1 y h q hqq) (by exact fun hh => absurd (lt_of_lt_of_le hc1 hh) (lt_irrefl q))
                · simp only [List.mem_singleton] at h
                  rw [h]
                  exact DateTime.leb_refl pt
              · intro y hy qq hqq
                rcases List.mem_append.mp hy with h | h
                · exact hmax.2.1 y h qq hqq
                · simp only [List.mem_singleton] at h
                  rw [h] at hqq
                  have hinj := Val.fin.inj hqq
                  subst hinj
                  first
                  | exact le_refl q
                  | exact not_lt.mp hc1
                  | exact not_lt.mp hc2
              · intro y hy hqq
                rcases List.mem_append.mp hy with h | h
                · exact hmax.2.2 y h hqq
                · simp only [List.mem_singleton] at h
                  rw [h]
                  exact hlp' _ hmax.1
          · by_cases hc2 : vmx < q
            · rw [if_neg hc1, if_pos hc2]
              refine ⟨vmn, tmn, q, pt, rfl,
                ⟨List.mem_append_left _ hmin.1, ?_, ?_⟩, ⟨hmemp, ?_, ?_⟩⟩
              · intro y hy qq hqq
                rcases List.mem_append.mp hy with h | h
                · exact hmin.2.1 y h qq hqq
                · simp only [List.mem_singleton] at h
                  rw [h] at hqq
                  have hinj := Val.fin.inj hqq
                  subst hinj
                  first
                  | exact le_refl q
                  | exact not_lt.mp hc1
                  | exact not_lt.mp hc2
              · intro y hy hqq
                rcases List.mem_append.mp hy with h | h
                · exact hmin.2.2 y h hqq
                · simp only [List.mem_singleton] at h
                  rw [h]
                  exact hlp' _ hmin.1
              · intro y hy qq hqq
                rcases List.mem_append.mp hy with h | h
                · exact le_trans (hmax.2.1 y h qq hqq) (le_of_lt hc2)
                · simp only [List.mem_singleton] at h
                  rw [h] at hqq
                  have hinj := Val.fin.inj hqq
                  subst hinj
                  first
                  | exact le_refl q
                  | exact not_lt.mp hc1
                  | exact not_lt.mp hc2
              · intro y hy hqq
                rcases List.mem_append.mp hy with h | h
                · exact absurd (hmax.2.1 y h q hqq) (by exact fun hh => absurd (lt_of_le_of_lt hh hc2) (lt_irrefl q))
                · simp only [List.mem_singleton] at h
                  rw [h]
                  exact DateTime.leb_refl pt
            · rw [if_neg hc1, if_neg hc2]
              refine ⟨vmn, tmn, vmx, tmx, rfl,
                ⟨List.mem_append_left _ hmin.1, ?_, ?_⟩,
                ⟨List.mem_append_left _ hmax.1, ?_, ?_⟩⟩
              · intro y hy qq hqq
                rcases List.mem_append.mp hy with h | h
                · exact hmin.2.1 y h qq hqq
                · simp only [List.mem_singleton] at h
                  rw [h] at hqq
                  have hinj := Val.fin.inj hqq
                  subst hinj
                  first
                  | exact le_refl q
                  | exact not_lt.mp hc1
                  | exact not_lt.mp hc2
              · intro y hy hqq
                rcases List.mem_append.mp hy with h | h
                · exact hmin.2.2 y h hqq
                · simp only [List.mem_singleton] at h
                  rw [h]
                  exact hlp' _ hmin.1
              · intro y hy qq hqq
                rcases List.mem_append.mp hy with h | h
                · exact hmax.2.1 y h qq hqq
                · simp only [List.mem_singleton] at h
                  rw [h] at hqq
                  have hinj := Val.fin.inj hqq
                  subst hinj
                  first
                  | exact le_refl q
                  | exact not_lt.mp hc1
                  | exact not_lt.mp hc2
              · intro y hy hqq
                rcases List.mem_append.mp hy with h | h
                · exact hmax.2.2 y h hqq
                · simp only [List.mem_singleton] at h
                  rw [h]
                  exact hlp' _ hmax.1
/-- The minimum value and its earliest timestamp are uniquely determined. -/
theorem earliestMin_unique (l : List (DateTime × Val)) (v v' : ℚ) (t t' : DateTime)
    (h : IsEarliestMin l v t) (h' : IsEarliestMin l v' t') : v = v' ∧ t = t' := by
  have hv : v = v' := le_antisymm (h.2.1 _ h'.1 _ rfl) (h'.2.1 _ h.1 _ rfl)
  subst hv
  exact ⟨rfl, DateTime.leb_antisymm _ _ (h.2.2 _ h'.1 rfl) (h'.2.2 _ h.1 rfl)⟩

/-- The maximum value and its earliest timestamp are uniquely determined. -/
theorem earliestMax_unique (l : List (DateTime × Val)) (v v' : ℚ) (t t' : DateTime)
    (h : IsEarliestMax l v t) (h' : IsEarliestMax l v' t') : v = v' ∧ t = t' := by
  have hv : v = v' := le_antisymm (h'.2.1 _ h.1 _ rfl) (h.2.1 _ h'.1 _ rfl)
  subst hv
  exact ⟨rfl, DateTime.leb_antisymm _ _ (h.2.2 _ h'.1 rfl) (h'.2.2 _ h.1 rfl)⟩

/-- When the minimum and maximum coincide, so do their timestamps. -/
theorem earliest_min_max_ts_eq (l : List (DateTime × Val)) (vmn vmx : ℚ)
    (tmn tmx : DateTime) (hmin : IsEarliestMin l vmn tmn)
    (hmax : IsEarliestMax l vmx tmx) (heq : vmn = vmx) : tmn = tmx := by
  subst heq
  exact DateTime.leb_antisymm _ _ (hmin.2.2 _ hmax.1 rfl) (hmax.2.2 _ hmin.1 rfl)

/-- `Val.isFin` characterised. -/
theorem Val.isFin_iff (v : Val) : v.isFin = true ↔ ∃ q : ℚ, v = Val.fin q := by
  cases v <;> simp [Val.isFin]

/-- Folding records keeps the accumulated list as a suffix append. -/
theorem foldl_addSingleRecord_recordList (l : List record) :
    ∀ rs : records, (l.foldl records.addSingleRecord rs).recordList =
      rs.recordList ++ l := by
  induction l with
  | nil => intro rs; simp
  | cons r rest ih =>
    intro rs
    rw [List.foldl_cons, ih]
    simp [records.addSingleRecord]

/-- `buildRecords` stores exactly the given list. -/
theorem buildRecords_recordList (l : List record) :
    (buildRecords l).recordList = l := by
  rw [buildRecords, foldl_addSingleRecord_recordList]
  rfl

/-- The temperature channel of the record fold. -/
theorem foldl_addSingleRecord_tempStat (l : List record) :
    ∀ rs : records, (l.foldl records.addSingleRecord rs).tempStat =
      (l.map (fun r => (r.ts, r.temp))).foldl
        (fun s p => s.updateWithValue (some p.1) p.2) rs.tempStat := by
  induction l with
  | nil => intro rs; rfl
  | cons r rest ih =>
    intro rs
    rw [List.foldl_cons, ih]
    rfl

/-- The humidity channel of the record fold. -/
theorem foldl_addSingleRecord_humStat (l : List record) :
    ∀ rs : records, (l.foldl records.addSingleRecord rs).humStat =
      (l.map (fun r => (r.ts, r.hum))).foldl
        (fun s p => s.updateWithValue (some p.1) p.2) rs.humStat := by
  induction l with
  | nil => intro rs; rfl
  | cons r rest ih =>
    intro rs
    rw [List.foldl_cons, ih]
    rfl

/-- The temperature statistics of `buildRecords` is the channel fold. -/
theorem buildRecords_tempStat (l : List record) :
    (buildRecords l).tempStat = statOf (l.map fun r => (r.ts, r.temp)) := by
  rw [buildRecords, foldl_addSingleRecord_tempStat]
  rfl

/-- The humidity statistics of `buildRecords` is the channel fold. -/
theorem buildRecords_humStat (l : List record) :
    (buildRecords l).humStat = statOf (l.map fun r => (r.ts, r.hum)) := by
  rw [buildRecords, foldl_addSingleRecord_humStat]
  rfl

/-- Chronological order transfers to a channel list. -/
theorem chron_map_channel (l : List record) (f : record → Val)
    (hord : ChronRecords l) : Chron (l.map fun r => (r.ts, f r)) := by
  rw [Chron]
  exact List.Pairwise.map _ (fun a b h => h) hord

/-! ### C5: extrema values and earliest tie timestamps -/

/-- C5: for a `records` object built by adding chronologically ordered
finite-or-NaN samples one by one, if some temperature is finite then the
temperature statistics hold the minimum and maximum temperature, each
stamped with the earliest timestamp achieving that value (overwrites happen
only on strict comparison); symmetrically for humidity. -/
theorem c5_extrema_earliest_timestamp (l : List record) (hord : ChronRecords l)
    (hfin : ∀ r ∈ l, r.temp.finOrNaN = true ∧ r.hum.finOrNaN = true) :
    ((∃ r ∈ l, r.temp.isFin = true) →
      ∃ vmn tmn vmx tmx,
        (buildRecords l).tempStat = ⟨some tmn, some tmx, Val.fin vmn, Val.fin vmx⟩ ∧
        IsEarliestMin (l.map fun r => (r.ts, r.temp)) vmn tmn ∧
        IsEarliestMax (l.map fun r => (r.ts, r.temp)) vmx tmx) ∧
    ((∃ r ∈ l, r.hum.isFin = true) →
      ∃ vmn tmn vmx tmx,
        (buildRecords l).humStat = ⟨some tmn, some tmx, Val.fin vmn, Val.fin vmx⟩ ∧
        IsEarliestMin (l.map fun r => (r.ts, r.hum)) vmn tmn ∧
        IsEarliestMax (l.map fun r => (r.ts, r.hum)) vmx tmx) := by
  constructor
  · rintro ⟨r, hr, hrf⟩
    obtain ⟨q, hq⟩ := (Val.isFin_iff _).mp hrf
    have hfin' : ∀ p ∈ l.map (fun r => (r.ts, r.temp)), p.2.finOrNaN = true := by
      intro p hp
      obtain ⟨r', hr', rfl⟩ := List.mem_map.mp hp
      exact (hfin r' hr').1
    have hres := (statOf_spec _ (chron_map_channel l (fun r => r.temp) hord) hfin').2
      (r.ts, r.temp) (List.mem_map.mpr ⟨r, hr, rfl⟩) q hq
    rw [buildRecords_tempStat]
    exact hres
  · rintro ⟨r, hr, hrf⟩
    obtain ⟨q, hq⟩ := (Val.isFin_iff _).mp hrf
    have hfin' : ∀ p ∈ l.map (fun r => (r.ts, r.hum)), p.2.finOrNaN = true := by
      intro p hp
      obtain ⟨r', hr', rfl⟩ := List.mem_map.mp hp
      exact (hfin r' hr').2
    have hres := (statOf_spec _ (chron_map_channel l (fun r => r.hum) hord) hfin').2
      (r.ts, r.hum) (List.mem_map.mpr ⟨r, hr, rfl⟩) q hq
    rw [buildRecords_humStat]
    exact hres

/-- C5 witness: the theorem applied to two concrete samples (temperature
channel). -/
theorem c5_extrema_earliest_timestamp_witness :
    (ChronRecords
        [⟨⟨⟨2024, 1, 1⟩, 0⟩, Val.fin 21, Val.fin 50⟩,
         ⟨⟨⟨2024, 1, 2⟩, 0⟩, Val.fin 22, Val.fin 49⟩] ∧
      (∀ r ∈ [(⟨⟨⟨2024, 1, 1⟩, 0⟩, Val.fin 21, Val.fin 50⟩ : record),
          ⟨⟨⟨2024, 1, 2⟩, 0⟩, Val.fin 22, Val.fin 49⟩],
        r.temp.finOrNaN = true ∧ r.hum.finOrNaN = true) ∧
      (∃ r ∈ [(⟨⟨⟨2024, 1, 1⟩, 0⟩, Val.fin 21, Val.fin 50⟩ : record),
          ⟨⟨⟨2024, 1, 2⟩, 0⟩, Val.fin 22, Val.fin 49⟩], r.temp.isFin = true)) ∧
    (∃ vmn tmn vmx tmx,
      (buildRecords
        [⟨⟨⟨2024, 1, 1⟩, 0⟩, Val.fin 21, Val.fin 50⟩,
         ⟨⟨⟨2024, 1, 2⟩, 0⟩, Val.fin 22, Val.fin 49⟩]).tempStat =
          ⟨some tmn, some tmx, Val.fin vmn, Val.fin vmx⟩ ∧
      IsEarliestMin
        ([(⟨⟨⟨2024, 1, 1⟩, 0⟩, Val.fin 21, Val.fin 50⟩ : record),
          ⟨⟨⟨2024, 1, 2⟩, 0⟩, Val.fin 22, Val.fin 49⟩].map fun r => (r.ts, r.temp))
        vmn tmn ∧
      IsEarliestMax
        ([(⟨⟨⟨2024, 1, 1⟩, 0⟩, Val.fin 21, Val.fin 50⟩ : record),
          ⟨⟨⟨2024, 1, 2⟩, 0⟩, Val.fin 22, Val.fin 49⟩].map fun r => (r.ts, r.temp))
        vmx tmx) :=
  ⟨⟨by decide, by decide, by decide⟩,
    (c5_extrema_earliest_timestamp _ (by decide) (by decide)).1 (by decide)⟩

/-! ### C1: merging statistics -/

/-- Closed form of `updateWithRecordStat` on two finite trackers: values
merge by strict comparison, and on a value tie the receiver's (first
argument's) timestamp survives. -/
theorem updateWithRecordStat_fin (amnT amxT btmn btmx : DateTime)
    (amn amx bmn bmx : ℚ) (h1 : amn ≤ amx) (h2 : bmn ≤ bmx)
    (h3 : bmn = bmx → btmn = btmx) :
    recordStat.updateWithRecordStat ⟨some amnT, some amxT, Val.fin amn, Val.fin amx⟩
        ⟨some btmn, some btmx, Val.fin bmn, Val.fin bmx⟩ =
      ⟨some (if bmn < amn then btmn else amnT),
       some (if amx < bmx then btmx else amxT),
       Val.fin (if bmn < amn then bmn else amn),
       Val.fin (if amx < bmx then bmx else amx)⟩ := by
  unfold recordStat.updateWithRecordStat
  by_cases c1 : bmn < amn <;> by_cases c2 : amx < bmn
  · exact absurd (lt_trans (lt_of_le_of_lt h1 c2) c1) (lt_irrefl amn)
  · have e1 : (⟨some amnT, some amxT, Val.fin amn, Val.fin amx⟩ :
        recordStat).updateWithValue (some btmn) (Val.fin bmn) =
        ⟨some btmn, some amxT, Val.fin bmn, Val.fin amx⟩ := by
      rw [updateWithValue_eq]
      simp [Val.ltb, c1, c2]
    rw [e1, updateWithValue_eq]
    simp only [Val.ltb, decide_eq_true_eq]
    rw [if_neg (fun hh => absurd (lt_of_le_of_lt h2 hh) (lt_irrefl bmn))]
    by_cases c4 : amx < bmx
    · simp [c1, c4]
    · simp [c1, c4]
  · have hax : amx < bmx := lt_of_lt_of_le c2 h2
    have e1 : (⟨some amnT, some amxT, Val.fin amn, Val.fin amx⟩ :
        recordStat).updateWithValue (some btmn) (Val.fin bmn) =
        ⟨some amnT, some btmn, Val.fin amn, Val.fin bmn⟩ := by
      rw [updateWithValue_eq]
      simp [Val.ltb, c1, c2]
    rw [e1, updateWithValue_eq]
    simp only [Val.ltb, decide_eq_true_eq]
    rw [if_neg (fun hh => absurd (lt_of_le_of_lt (le_trans (not_lt.mp c1) h2) hh)
      (lt_irrefl amn))]
    by_cases c5 : bmn < bmx
    · simp [c1, c5, hax]
    · have hbe : bmn = bmx := le_antisymm h2 (not_lt.mp c5)
      have hc6 : ¬ bmx < amn := hbe ▸ c1
      simp [c1, c5, hax, hbe, h3 hbe, hc6]
  · have e1 : (⟨some amnT, some amxT, Val.fin amn, Val.fin amx⟩ :
        recordStat).updateWithValue (some btmn) (Val.fin bmn) =
        ⟨some amnT, some amxT, Val.fin amn, Val.fin amx⟩ := by
      rw [updateWithValue_eq]
      simp [Val.ltb, c1, c2]
    rw [e1, updateWithValue_eq]
    simp only [Val.ltb, decide_eq_true_eq]
    rw [if_neg (fun hh => absurd (lt_of_le_of_lt (le_trans (not_lt.mp c1) h2) hh)
      (lt_irrefl amn))]
    by_cases c4 : amx < bmx
    · simp [c1, c4]
    · simp [c1, c4]

/-- Component-wise equality of `records`. -/
theorem records_ext (x y : records) (h1 : x.recordList = y.recordList)
    (h2 : x.tempStat = y.tempStat) (h3 : x.humStat = y.humStat) : x = y := by
  cases x; cases y; simp_all

/-- Merging the statistics of an earlier chronologically ordered channel
list with those of a later one equals folding the concatenation through a
single tracker, provided the later list has at least one finite value. -/
theorem merge_statOf (a b : List (DateTime × Val))
    (horda : Chron a) (hordb : Chron b)
    (hab : ∀ p ∈ a, ∀ q ∈ b, DateTime.leb p.1 q.1 = true)
    (hfina : ∀ p ∈ a, p.2.finOrNaN = true) (hfinb : ∀ p ∈ b, p.2.finOrNaN = true)
    (hexb : ∃ p ∈ b, p.2.isFin = true) :
    (statOf a).updateWithRecordStat (statOf b) = statOf (a ++ b) := by
  obtain ⟨pb, hpb, hpbf⟩ := hexb
  obtain ⟨qb, hqb⟩ := (Val.isFin_iff _).mp hpbf
  obtain ⟨bmn, btmn, bmx, btmx, hbstat, hbmin, hbmax⟩ :=
    (statOf_spec b hordb hfinb).2 pb hpb qb hqb
  have hb12 : bmn ≤ bmx := hbmin.2.1 _ hbmax.1 _ rfl
  have hb3 : bmn = bmx → btmn = btmx :=
    earliest_min_max_ts_eq b bmn bmx btmn btmx hbmin hbmax
  have hordab : Chron (a ++ b) := by
    rw [Chron, List.pairwise_append]
    exact ⟨horda, hordb, fun p hp q hq => hab p hp q hq⟩
  have hfinab : ∀ p ∈ a ++ b, p.2.finOrNaN = true := by
    intro p hp
    rcases List.mem_append.mp hp with h | h
    exacts [hfina p h, hfinb p h]
  obtain ⟨cmn, ctmn, cmx, ctmx, hcstat, hcmin, hcmax⟩ :=
    (statOf_spec _ hordab hfinab).2 pb (List.mem_append_right _ hpb) qb hqb
  by_cases hana : ∀ p ∈ a, p.2 = Val.nan
  · have ha : statOf a = recordStat.init := statOf_all_nan a hana
    have hautob : statOf (a ++ b) = statOf b := by
      rw [statOf, List.foldl_append]
      show List.foldl _ (statOf a) b = _
      rw [ha]
      rfl
    rw [ha, hautob, hbstat]
    unfold recordStat.updateWithRecordStat
    have e1 : (recordStat.init).updateWithValue (some btmn) (Val.fin bmn) =
        ⟨some btmn, some btmn, Val.fin bmn, Val.fin bmn⟩ := by
      rw [updateWithValue_eq]
      simp [recordStat.init, Val.ltb]
    rw [e1, updateWithValue_eq]
    simp only [Val.ltb, decide_eq_true_eq]
    rw [if_neg (fun hh => absurd (lt_of_le_of_lt hb12 hh) (lt_irrefl bmn))]
    by_cases c : bmn < bmx
    · simp [c]
    · have hbe : bmn = bmx := le_antisymm hb12 (not_lt.mp c)
      simp [c, hbe, hb3 hbe]
  · push_neg at hana
    obtain ⟨pa, hpa, hpanan⟩ := hana
    have hqa : ∃ qa : ℚ, pa.2 = Val.fin qa := by
      have hfa := hfina pa hpa
      cases hv : pa.2 with
      | nan => exact absurd hv hpanan
      | negInf => rw [hv] at hfa; simp [Val.finOrNaN] at hfa
      | posInf => rw [hv] at hfa; simp [Val.finOrNaN] at hfa
      | fin qa => exact ⟨qa, rfl⟩
    obtain ⟨qa, hqa⟩ := hqa
    obtain ⟨amn, amnT, amx, amxT, hastat, hamin, hamax⟩ :=
      (statOf_spec a horda hfina).2 pa hpa qa hqa
    have ha12 : amn ≤ amx := hamin.2.1 _ hamax.1 _ rfl
    rw [hastat, hbstat,
      updateWithRecordStat_fin amnT amxT btmn btmx amn amx bmn bmx ha12 hb12 hb3,
      hcstat]
    have hminm : IsEarliestMin (a ++ b) (if bmn < amn then bmn else amn)
        (if bmn < amn then btmn else amnT) := by
      by_cases hc : bmn < amn
      · rw [if_pos hc, if_pos hc]
        refine ⟨List.mem_append_right _ hbmin.1, ?_, ?_⟩
        · intro y hy qq hqq
          rcases List.mem_append.mp hy with h | h
          · exact le_trans (le_of_lt hc) (hamin.2.1 y h qq hqq)
          · exact hbmin.2.1 y h qq hqq
        · intro y hy hqq
          rcases List.mem_append.mp hy with h | h
          · exact absurd (hamin.2.1 y h _ hqq)
              (fun hh => absurd (lt_of_lt_of_le hc hh) (lt_irrefl bmn))
          · exact hbmin.2.2 y h hqq
      · rw [if_neg hc, if_neg hc]
        refine ⟨List.mem_append_left _ hamin.1, ?_, ?_⟩
        · intro y hy qq hqq
          rcases List.mem_append.mp hy with h | h
          · exact hamin.2.1 y h qq hqq
          · exact le_trans (not_lt.mp hc) (hbmin.2.1 y h qq hqq)
        · intro y hy hqq
          rcases List.mem_append.mp hy with h | h
          · exact hamin.2.2 y h hqq
          · exact hab _ hamin.1 y h
    have hmaxm : IsEarliestMax (a ++ b) (if amx < bmx then bmx else amx)
        (if amx < bmx then btmx else amxT) := by
      by_cases hc : amx < bmx
      · rw [if_pos hc, if_pos hc]
        refine ⟨List.mem_append_right _ hbmax.1, ?_, ?_⟩
        · intro y hy qq hqq
          rcases List.mem_append.mp hy with h | h
          · exact le_trans (hamax.2.1 y h qq hqq) (le_of_lt hc)
          · exact hbmax.2.1 y h qq hqq
        · intro y hy hqq
          rcases List.mem_append.mp hy with h | h
          · exact absurd (hamax.2.1 y h _ hqq)
              (fun hh => absurd (lt_of_le_of_lt hh hc) (lt_irrefl bmx))
          · exact hbmax.2.2 y h hqq
      · rw [if_neg hc, if_neg hc]
        refine ⟨List.mem_append_left _ hamax.1, ?_, ?_⟩
        · intro y hy qq hqq
          rcases List.mem_append.mp hy with h | h
          · exact hamax.2.1 y h qq hqq
          · exact le_trans (hbmax.2.1 y h qq hqq) (not_lt.mp hc)
        · intro y hy hqq
          rcases List.mem_append.mp hy with h | h
          · exact hamax.2.2 y h hqq
          · exact hab _ hamax.1 y h
    obtain ⟨hv1, ht1⟩ := earliestMin_unique _ _ _ _ _ hminm hcmin
    obtain ⟨hv2, ht2⟩ := earliestMax_unique _ _ _ _ _ hmaxm hcmax
    rw [hv1, ht1, hv2, ht2]

/-- Channel-level corollary of `merge_statOf` for record lists. -/
theorem merge_channel (A B : List record) (f : record → Val)
    (hordA : ChronRecords A) (hordB : ChronRecords B)
    (hAB : ∀ ra ∈ A, ∀ rb ∈ B, DateTime.leb ra.ts rb.ts = true)
    (hfinA : ∀ r ∈ A, (f r).finOrNaN = true) (hfinB : ∀ r ∈ B, (f r).finOrNaN = true)
    (hex : ∃ r ∈ B, (f r).isFin = true) :
    (statOf (A.map fun r => (r.ts, f r))).updateWithRecordStat
        (statOf (B.map fun r => (r.ts, f r))) =
      statOf ((A ++ B).map fun r => (r.ts, f r)) := by
  rw [List.map_append]
  apply merge_statOf
  · exact chron_map_channel A f hordA
  · exact chron_map_channel B f hordB
  · intro p hp q hq
    obtain ⟨ra, hra, rfl⟩ := List.mem_map.mp hp
    obtain ⟨rb, hrb, rfl⟩ := List.mem_map.mp hq
    exact hAB ra hra rb hrb
  · intro p hp
    obtain ⟨r, hr, rfl⟩ := List.mem_map.mp hp
    exact hfinA r hr
  · intro p hp
    obtain ⟨r, hr, rfl⟩ := List.mem_map.mp hp
    exact hfinB r hr
  · obtain ⟨r, hr, hf⟩ := hex
    exact ⟨(r.ts, f r), List.mem_map.mpr ⟨r, hr, rfl⟩, hf⟩

/-- C1 counterexample: two disjoint chronologically ordered single-sample
lists that tie on the value.  Merging the later statistics with the earlier
ones (`merge(B, A)`, receiver `B`) keeps the later timestamp, so it differs
from the statistics folded over the concatenation, and the two merge orders
disagree — merge is not order-independent under ties. -/
theorem c1_merge_tie_order_dependent_cex :
    (statOf [(⟨⟨2024, 1, 2⟩, 0⟩, Val.fin 5)]).updateWithRecordStat
        (statOf [(⟨⟨2024, 1, 1⟩, 0⟩, Val.fin 5)]) ≠
      statOf ([(⟨⟨2024, 1, 1⟩, 0⟩, Val.fin 5)] ++
        [((⟨⟨2024, 1, 2⟩, 0⟩ : DateTime), Val.fin 5)]) ∧
    (statOf [(⟨⟨2024, 1, 2⟩, 0⟩, Val.fin 5)]).updateWithRecordStat
        (statOf [(⟨⟨2024, 1, 1⟩, 0⟩, Val.fin 5)]) ≠
      (statOf [(⟨⟨2024, 1, 1⟩, 0⟩, Val.fin 5)]).updateWithRecordStat
        (statOf [((⟨⟨2024, 1, 2⟩, 0⟩ : DateTime), Val.fin 5)]) := by
  exact ⟨by decide, by decide⟩

/-- C1 amended: merging the `records` built from an earlier chronologically
ordered sample list `A` with those of a later list `B` (in this order, as
`getRecords` always does) equals building a single `records` from the
concatenation, provided both channels of `B` contain a finite value; and the
extrema of that merged statistics carry the earliest timestamp achieving
each value over the concatenation.  (The reverse merge order may differ when
an extremum value ties across the two lists — see the counterexample.) -/
theorem c1_merge_equals_concat (A B : List record)
    (hordA : ChronRecords A) (hordB : ChronRecords B)
    (hAB : ∀ ra ∈ A, ∀ rb ∈ B, DateTime.leb ra.ts rb.ts = true)
    (hfinA : ∀ r ∈ A, r.temp.finOrNaN = true ∧ r.hum.finOrNaN = true)
    (hfinB : ∀ r ∈ B, r.temp.finOrNaN = true ∧ r.hum.finOrNaN = true)
    (hexT : ∃ r ∈ B, r.temp.isFin = true) (hexH : ∃ r ∈ B, r.hum.isFin = true) :
    (buildRecords A).addRecordList (buildRecords B) = buildRecords (A ++ B) ∧
    (∃ vmn tmn vmx tmx,
      ((buildRecords A).addRecordList (buildRecords B)).tempStat =
        ⟨some tmn, some tmx, Val.fin vmn, Val.fin vmx⟩ ∧
      IsEarliestMin ((A ++ B).map fun r => (r.ts, r.temp)) vmn tmn ∧
      IsEarliestMax ((A ++ B).map fun r => (r.ts, r.temp)) vmx tmx) ∧
    (∃ vmn tmn vmx tmx,
      ((buildRecords A).addRecordList (buildRecords B)).humStat =
        ⟨some tmn, some tmx, Val.fin vmn, Val.fin vmx⟩ ∧
      IsEarliestMin ((A ++ B).map fun r => (r.ts, r.hum)) vmn tmn ∧
      IsEarliestMax ((A ++ B).map fun r => (r.ts, r.hum)) vmx tmx) := by
  have heq : (buildRecords A).addRecordList (buildRecords B) = buildRecords (A ++ B) := by
    apply records_ext
    · show (buildRecords A).recordList ++ (buildRecords B).recordList = _
      rw [buildRecords_recordList, buildRecords_recordList, buildRecords_recordList]
    · show ((buildRecords A).tempStat).updateWithRecordStat ((buildRecords B).tempStat) = _
      rw [buildRecords_tempStat, buildRecords_tempStat, buildRecords_tempStat]
      exact merge_channel A B (fun r => r.temp) hordA hordB hAB
        (fun r hr => (hfinA r hr).1) (fun r hr => (hfinB r hr).1) hexT
    · show ((buildRecords A).humStat).updateWithRecordStat ((buildRecords B).humStat) = _
      rw [buildRecords_humStat, buildRecords_humStat, buildRecords_humStat]
      exact merge_channel A B (fun r => r.hum) hordA hordB hAB
        (fun r hr => (hfinA r hr).2) (fun r hr => (hfinB r hr).2) hexH
  have hordAB : ChronRecords (A ++ B) := by
    rw [ChronRecords, List.pairwise_append]
    exact ⟨hordA, hordB, hAB⟩
  refine ⟨heq, ?_, ?_⟩
  · obtain ⟨r, hr, hf⟩ := hexT
    obtain ⟨q, hq⟩ := (Val.isFin_iff _).mp hf
    have hres := (statOf_spec ((A ++ B).map fun r => (r.ts, r.temp))
      (chron_map_channel _ _ hordAB)
      (by
        intro p hp
        obtain ⟨r', hr', rfl⟩ := List.mem_map.mp hp
        rcases List.mem_append.mp hr' with h | h
        exacts [(hfinA r' h).1, (hfinB r' h).1])).2
      (r.ts, r.temp) (List.mem_map.mpr ⟨r, List.mem_append_right _ hr, rfl⟩) q hq
    rw [heq, buildRecords_tempStat]
    exact hres
  · obtain ⟨r, hr, hf⟩ := hexH
    obtain ⟨q, hq⟩ := (Val.isFin_iff _).mp hf
    have hres := (statOf_spec ((A ++ B).map fun r => (r.ts, r.hum))
      (chron_map_channel _ _ hordAB)
      (by
        intro p hp
        obtain ⟨r', hr', rfl⟩ := List.mem_map.mp hp
        rcases List.mem_append.mp hr' with h | h
        exacts [(hfinA r' h).2, (hfinB r' h).2])).2
      (r.ts, r.hum) (List.mem_map.mpr ⟨r, List.mem_append_right _ hr, rfl⟩) q hq
    rw [heq, buildRecords_humStat]
    exact hres

/-- C1 witness: the amended theorem at two concrete one-sample lists. -/
theorem c1_merge_equals_concat_witness :
    (ChronRecords [(⟨⟨⟨2024, 1, 1⟩, 0⟩, Val.fin 21, Val.fin 50⟩ : record)] ∧
     ChronRecords [(⟨⟨⟨2024, 1, 2⟩, 0⟩, Val.fin 22, Val.fin 49⟩ : record)] ∧
     (∃ r ∈ [(⟨⟨⟨2024, 1, 2⟩, 0⟩, Val.fin 22, Val.fin 49⟩ : record)],
        r.temp.isFin = true)) ∧
    (buildRecords [(⟨⟨⟨2024, 1, 1⟩, 0⟩, Val.fin 21, Val.fin 50⟩ : record)]).addRecordList
        (buildRecords [(⟨⟨⟨2024, 1, 2⟩, 0⟩, Val.fin 22, Val.fin 49⟩ : record)]) =
      buildRecords ([(⟨⟨⟨2024, 1, 1⟩, 0⟩, Val.fin 21, Val.fin 50⟩ : record)] ++
        [(⟨⟨⟨2024, 1, 2⟩, 0⟩, Val.fin 22, Val.fin 49⟩ : record)]) :=
  ⟨⟨by decide, by decide, by decide⟩,
    (c1_merge_equals_concat _ _ (by decide) (by decide) (by decide) (by decide)
      (by decide) (by decide) (by decide)).1⟩

/-! ### Parsing and formatting lemmas (towards C6, C4, C2) -/

/-- Facts about digit characters. -/
theorem digit_facts : ∀ d : Nat, d < 10 →
    (digitChar d).isDigit = true ∧ (digitChar d).toNat = 48 + d ∧
    (digitChar d).isWhitespace = false ∧ digitChar d ≠ '-' ∧
    digitChar d ≠ ':' ∧ digitChar d ≠ ' ' := by decide

/-- Parsing a two-digit zero-padded field returns the value. -/
theorem parseNatBounded_pad2 (n : Nat) (h : n < 100) :
    parseNatBounded 2 (pad2 n) = some n := by
  have h1 := digit_facts (n / 10 % 10) (by omega)
  have h2 := digit_facts (n % 10) (by omega)
  unfold parseNatBounded pad2 natValCl
  simp [h1.1, h2.1, h1.2.1, h2.2.1]
  omega

/-- Parsing a four-digit zero-padded field returns the value. -/
theorem parseNatBounded_pad4 (n : Nat) (h : n < 10000) :
    parseNatBounded 4 (pad4 n) = some n := by
  have h1 := digit_facts (n / 1000 % 10) (by omega)
  have h2 := digit_facts (n / 100 % 10) (by omega)
  have h3 := digit_facts (n / 10 % 10) (by omega)
  have h4 := digit_facts (n % 10) (by omega)
  unfold parseNatBounded pad4 natValCl
  simp [h1.1, h2.1, h3.1, h4.1, h1.2.1, h2.2.1, h3.2.1, h4.2.1]
  omega

/-- Every character of `pad2 n` is a digit character. -/
theorem pad2_chars (n : Nat) : ∀ c ∈ pad2 n, ∃ dd : Nat, dd < 10 ∧ c = digitChar dd := by
  intro c hc
  simp only [pad2, List.mem_cons, List.mem_singleton, List.not_mem_nil] at hc
  rcases hc with h | h | h
  · exact ⟨n / 10 % 10, by omega, h⟩
  · exact ⟨n % 10, by omega, h⟩
  · cases h

/-- Every character of `pad4 n` is a digit character. -/
theorem pad4_chars (n : Nat) : ∀ c ∈ pad4 n, ∃ dd : Nat, dd < 10 ∧ c = digitChar dd := by
  intro c hc
  simp only [pad4, List.mem_cons, List.mem_singleton, List.not_mem_nil] at hc
  rcases hc with h | h | h | h | h
  · exact ⟨n / 1000 % 10, by omega, h⟩
  · exact ⟨n / 100 % 10, by omega, h⟩
  · exact ⟨n / 10 % 10, by omega, h⟩
  · exact ⟨n % 10, by omega, h⟩
  · cases h

/-- Splitting a separator-free list yields the singleton. -/
theorem splitOnChar_no_sep (sep : Char) :
    ∀ (a : List Char), (∀ c ∈ a, c ≠ sep) → splitOnCharCl sep a = [a] := by
  intro a
  induction a with
  | nil => intro _; rfl
  | cons c cs ih =>
    intro h
    rw [splitOnCharCl]
    rw [ih (fun x hx => h x (by simp [hx]))]
    rw [if_neg (h c (by simp))]

/-- Splitting past a separator-free prefix. -/
theorem splitOnChar_append (sep : Char) :
    ∀ (a rest : List Char), (∀ c ∈ a, c ≠ sep) →
      splitOnCharCl sep (a ++ sep :: rest) = a :: splitOnCharCl sep rest := by
  intro a
  induction a with
  | nil =>
    intro rest _
    rw [List.nil_append, splitOnCharCl, if_pos rfl]
  | cons c cs ih =>
    intro rest h
    rw [List.cons_append, splitOnCharCl,
      ih rest (fun x hx => h x (by simp [hx])), if_neg (h c (by simp))]

/-- Consuming a whitespace-free chunk in the `split()` loop. -/
theorem splitWs_go_chunk :
    ∀ (chunk : List Char), (∀ c ∈ chunk, c.isWhitespace = false) →
      ∀ (rest cur : List Char) (acc : List (List Char)),
        splitWsCl.go (chunk ++ rest) cur acc =
          splitWsCl.go rest (chunk.reverse ++ cur) acc := by
  intro chunk
  induction chunk with
  | nil => intro _ rest cur acc; simp
  | cons c cs ih =>
    intro h rest cur acc
    rw [List.cons_append, splitWsCl.go]
    simp only [h c (by simp), Bool.false_eq_true, if_false]
    rw [ih (fun x hx => h x (by simp [hx])) rest (c :: cur) acc]
    simp

/-- Consuming the separating space in the `split()` loop. -/
theorem splitWs_go_space (rest cur : List Char) (acc : List (List Char))
    (h : cur ≠ []) :
    splitWsCl.go (' ' :: rest) cur acc =
      splitWsCl.go rest [] (cur.reverse :: acc) := by
  rw [splitWsCl.go]
  simp [h]

/-- Finishing the `split()` loop on a pending chunk. -/
theorem splitWs_go_nil (cur : List Char) (acc : List (List Char)) (h : cur ≠ []) :
    splitWsCl.go [] cur acc = (cur.reverse :: acc).reverse := by
  rw [splitWsCl.go]
  simp [h]

/-- `split()` of four space-separated whitespace-free non-empty fields. -/
theorem splitWs_four (a b c d : List Char)
    (ha : a ≠ []) (hb : b ≠ []) (hc : c ≠ []) (hd : d ≠ [])
    (hwa : ∀ x ∈ a, x.isWhitespace = false) (hwb : ∀ x ∈ b, x.isWhitespace = false)
    (hwc : ∀ x ∈ c, x.isWhitespace = false) (hwd : ∀ x ∈ d, x.isWhitespace = false) :
    splitWsCl (a ++ ' ' :: (b ++ ' ' :: (c ++ ' ' :: d))) = [a, b, c, d] := by
  unfold splitWsCl
  rw [splitWs_go_chunk a hwa, List.append_nil,
    splitWs_go_space _ _ _ (by simpa using ha),
    splitWs_go_chunk b hwb, List.append_nil,
    splitWs_go_space _ _ _ (by simpa using hb),
    splitWs_go_chunk c hwc, List.append_nil,
    splitWs_go_space _ _ _ (by simpa using hc)]
  have hlast := splitWs_go_chunk d hwd [] []
    [c.reverse.reverse, b.reverse.reverse, a.reverse.reverse]
  rw [List.append_nil, List.append_nil] at hlast
  rw [hlast, splitWs_go_nil _ _ (by simpa using hd)]
  simp

/-- Upper bound on month lengths. -/
theorem daysInMonth_le (y : Int) (m : Nat) : daysInMonth y m ≤ 31 := by
  unfold daysInMonth
  split_ifs <;> omega

/-- Parsing back a formatted timestamp recovers it, truncated to whole
seconds (year within `datetime`'s printable range 1..9999). -/
theorem parseTimestamp_format (t : DateTime) (h : t.Valid)
    (hy1 : 1 ≤ t.date.y) (hy2 : t.date.y ≤ 9999) :
    parseTimestamp (pad4 t.date.y.toNat ++ '-' :: (pad2 t.date.m ++ '-' :: pad2 t.date.d))
      (pad2 (t.usod / 1000000 / 3600) ++
        ':' :: (pad2 (t.usod / 1000000 % 3600 / 60) ++ ':' :: pad2 (t.usod / 1000000 % 60))) =
      some (truncToSecond t) := by
  obtain ⟨⟨h1, h2, h3, h4⟩, h5⟩ := h
  have husod : t.usod < microsPerDay := h5
  rw [microsPerDay] at husod
  have hd31 : t.date.d ≤ 31 := le_trans h4 (daysInMonth_le _ _)
  have hsplit1 : splitOnCharCl '-'
      (pad4 t.date.y.toNat ++ '-' :: (pad2 t.date.m ++ '-' :: pad2 t.date.d)) =
      [pad4 t.date.y.toNat, pad2 t.date.m, pad2 t.date.d] := by
    rw [splitOnChar_append '-' _ _ (by
        intro x hx
        obtain ⟨dd, hdd, rfl⟩ := pad4_chars _ x hx
        exact (digit_facts dd hdd).2.2.2.1),
      splitOnChar_append '-' _ _ (by
        intro x hx
        obtain ⟨dd, hdd, rfl⟩ := pad2_chars _ x hx
        exact (digit_facts dd hdd).2.2.2.1),
      splitOnChar_no_sep '-' _ (by
        intro x hx
        obtain ⟨dd, hdd, rfl⟩ := pad2_chars _ x hx
        exact (digit_facts dd hdd).2.2.2.1)]
  have hsplit2 : splitOnCharCl ':'
      (pad2 (t.usod / 1000000 / 3600) ++
        ':' :: (pad2 (t.usod / 1000000 % 3600 / 60) ++
          ':' :: pad2 (t.usod / 1000000 % 60))) =
      [pad2 (t.usod / 1000000 / 3600), pad2 (t.usod / 1000000 % 3600 / 60),
       pad2 (t.usod / 1000000 % 60)] := by
    rw [splitOnChar_append ':' _ _ (by
        intro x hx
        obtain ⟨dd, hdd, rfl⟩ := pad2_chars _ x hx
        exact (digit_facts dd hdd).2.2.2.2.1),
      splitOnChar_append ':' _ _ (by
        intro x hx
        obtain ⟨dd, hdd, rfl⟩ := pad2_chars _ x hx
        exact (digit_facts dd hdd).2.2.2.2.1),
      splitOnChar_no_sep ':' _ (by
        intro x hx
        obtain ⟨dd, hdd, rfl⟩ := pad2_chars _ x hx
        exact (digit_facts dd hdd).2.2.2.2.1)]
  unfold parseTimestamp
  rw [hsplit1, hsplit2]
  dsimp only
  rw [parseNatBounded_pad4 _ (by omega), parseNatBounded_pad2 _ (by omega),
    parseNatBounded_pad2 _ (by omega), parseNatBounded_pad2 _ (by omega),
    parseNatBounded_pad2 _ (by omega), parseNatBounded_pad2 _ (by omega)]
  have hydi : daysInMonth ((t.date.y.toNat : Nat) : Int) t.date.m =
      daysInMonth t.date.y t.date.m := by
    congr 1
    omega
  dsimp only
  rw [if_pos (by
    refine ⟨by omega, h1, h2, h3, ?_, by omega, by omega, by omega⟩
    rw [hydi]
    exact h4)]
  have hy : ((t.date.y.toNat : Nat) : Int) = t.date.y := by omega
  unfold truncToSecond
  rw [Option.some.injEq, DateTime.mk.injEq]
  refine ⟨?_, by omega⟩
  rw [hy]

/-- The character list of `formatRecord` on a gap marker splits into the
four expected fields. -/
theorem formatRecord_gap_split (t : DateTime) (h : t.Valid) :
    splitWsCl (formatRecord ⟨t, Val.nan, Val.nan⟩).data =
      [pad4 t.date.y.toNat ++ '-' :: (pad2 t.date.m ++ '-' :: pad2 t.date.d),
       pad2 (t.usod / 1000000 / 3600) ++
        ':' :: (pad2 (t.usod / 1000000 % 3600 / 60) ++ ':' :: pad2 (t.usod / 1000000 % 60)),
       "nan".data, "nan".data] := by
  have hshape : (formatRecord ⟨t, Val.nan, Val.nan⟩).data =
      (pad4 t.date.y.toNat ++ '-' :: (pad2 t.date.m ++ '-' :: pad2 t.date.d)) ++
        ' ' :: ((pad2 (t.usod / 1000000 / 3600) ++
          ':' :: (pad2 (t.usod / 1000000 % 3600 / 60) ++
            ':' :: pad2 (t.usod / 1000000 % 60))) ++
          ' ' :: ("nan".data ++ ' ' :: "nan".data)) := by
    show (formatTimestamp t ++ ' ' :: formatValCl Val.nan ++
      ' ' :: formatValCl Val.nan) = _
    unfold formatTimestamp formatValCl
    simp [List.append_assoc]
  rw [hshape]
  apply splitWs_four
  · simp [pad4]
  · simp [pad2]
  · decide
  · decide
  · intro x hx
    simp only [List.mem_append, List.mem_cons] at hx
    rcases hx with hx | hx | hx | hx | hx
    · obtain ⟨dd, hdd, rfl⟩ := pad4_chars _ x hx
      exact (digit_facts dd hdd).2.2.1
    · subst hx; decide
    · obtain ⟨dd, hdd, rfl⟩ := pad2_chars _ x hx
      exact (digit_facts dd hdd).2.2.1
    · subst hx; decide
    · obtain ⟨dd, hdd, rfl⟩ := pad2_chars _ x hx
      exact (digit_facts dd hdd).2.2.1
  · intro x hx
    simp only [List.mem_append, List.mem_cons] at hx
    rcases hx with hx | hx | hx | hx | hx
    · obtain ⟨dd, hdd, rfl⟩ := pad2_chars _ x hx
      exact (digit_facts dd hdd).2.2.1
    · subst hx; decide
    · obtain ⟨dd, hdd, rfl⟩ := pad2_chars _ x hx
      exact (digit_facts dd hdd).2.2.1
    · subst hx; decide
    · obtain ⟨dd, hdd, rfl⟩ := pad2_chars _ x hx
      exact (digit_facts dd hdd).2.2.1
  · intro x hx
    fin_cases hx <;> decide
  · intro x hx
    fin_cases hx <;> decide

/-- `readRecords` is `buildRecords` of the successfully parsed in-range
rows. -/
theorem readRecords_eq (lines : List String) (s e : Option DateTime) :
    readRecords lines s e =
      buildRecords (lines.filterMap fun line => parseLine line s e) := by
  rw [readRecords, buildRecords]
  suffices h : ∀ (ls : List String) (rs : records),
      ls.foldl (fun recs line =>
        match parseLine line s e with
        | some r => recs.addSingleRecord r
        | none => recs) rs =
      (ls.filterMap fun line => parseLine line s e).foldl records.addSingleRecord rs by
    exact h lines records.init
  intro ls
  induction ls with
  | nil => intro rs; rfl
  | cons line rest ih =>
    intro rs
    rw [List.foldl_cons, List.filterMap_cons]
    cases hp : parseLine line s e with
    | none => exact ih rs
    | some rr =>
      rw [List.foldl_cons]
      exact ih _

/-- The rows a single shard read contributes, in order. -/
theorem readRecords_recordList (lines : List String) (s e : Option DateTime) :
    (readRecords lines s e).recordList =
      lines.filterMap fun line => parseLine line s e := by
  rw [readRecords_eq, buildRecords_recordList]

/-- Querying a store holding only the current record file returns exactly
that file's parse. -/
theorem getRecords_single_recordList (lines : List String) (s e : Option DateTime) :
    (getRecords [(recordBaseName, lines)] s e).recordList =
      (readRecords lines s e).recordList := by
  unfold getRecords
  have hfiles : listRecordFiles ([(recordBaseName, lines)].map Prod.fst) =
      [recordBaseName] := rfl
  rw [hfiles, List.foldl_cons, List.foldl_nil]
  unfold getRecordsStep
  rw [show readFileLines [(recordBaseName, lines)] recordBaseName = lines from by
    simp [readFileLines]]
  by_cases hl : (readRecords lines s e).recordList.length = 0
  · simp only [hl, if_pos]
    rw [List.length_eq_zero] at hl
    rw [hl]
    rfl
  · simp only [hl, if_neg, records.addRecordList]
    rfl

/-- Parsing back a formatted gap marker, inside a covering range. -/
theorem parseLine_gap (t : DateTime) (h : t.Valid)
    (hy1 : 1 ≤ t.date.y) (hy2 : t.date.y ≤ 9999)
    (dateStart dateEnd : Option DateTime)
    (hs : dateStart.elim false (fun d => DateTime.ltb (truncToSecond t) d) = false)
    (he : dateEnd.elim false (fun d => DateTime.ltb d (truncToSecond t)) = false) :
    parseLine (formatRecord ⟨t, Val.nan, Val.nan⟩) dateStart dateEnd =
      some ⟨truncToSecond t, Val.nan, Val.nan⟩ := by
  unfold parseLine
  rw [formatRecord_gap_split t h]
  dsimp only
  rw [parseTimestamp_format t h hy1 hy2]
  dsimp only
  rw [if_neg (by rw [hs]; exact Bool.false_ne_true)]
  rw [if_neg (by rw [he]; exact Bool.false_ne_true)]
  rfl

/-! ### C6: gap markers round-trip but never touch the extrema -/

/-- C6: a gap-marker sample (NaN temperature and humidity, valid timestamp
in `datetime`'s year range) written through `addRecord`'s format is parsed
back by a covering query as a row of the returned record list (timestamp
truncated to the stored second precision), while a NaN value never updates
any min/max tracker: updating any statistics with NaN is the identity. -/
theorem c6_gap_marker_roundtrip_inert (r : record)
    (hgapT : r.temp = Val.nan) (hgapH : r.hum = Val.nan)
    (hts : r.ts.Valid) (hy1 : 1 ≤ r.ts.date.y) (hy2 : r.ts.date.y ≤ 9999)
    (dateStart dateEnd : Option DateTime)
    (hs : dateStart.elim false (fun d => DateTime.ltb (truncToSecond r.ts) d) = false)
    (he : dateEnd.elim false (fun d => DateTime.ltb d (truncToSecond r.ts)) = false) :
    parseLine (formatRecord r) dateStart dateEnd =
      some ⟨truncToSecond r.ts, Val.nan, Val.nan⟩ ∧
    (∀ l1 l2 : List String,
      (getRecords [(recordBaseName, l1 ++ formatRecord r :: l2)]
          dateStart dateEnd).recordList =
        l1.filterMap (fun line => parseLine line dateStart dateEnd) ++
          ⟨truncToSecond r.ts, Val.nan, Val.nan⟩ ::
            l2.filterMap (fun line => parseLine line dateStart dateEnd)) ∧
    (∀ (s : recordStat) (ts' : Option DateTime), s.updateWithValue ts' Val.nan = s) := by
  have hr : r = ⟨r.ts, Val.nan, Val.nan⟩ := by
    cases r
    simp_all
  have hparse : parseLine (formatRecord r) dateStart dateEnd =
      some ⟨truncToSecond r.ts, Val.nan, Val.nan⟩ := by
    rw [hr]
    exact parseLine_gap r.ts hts hy1 hy2 dateStart dateEnd hs he
  refine ⟨hparse, ?_, fun s ts' => updateWithValue_nan s ts'⟩
  intro l1 l2
  rw [getRecords_single_recordList, readRecords_recordList, List.filterMap_append,
    List.filterMap_cons, hparse]

/-- C6 witness: the theorem applied to a concrete gap marker at
2024-03-15 12:00:00.500000 with an unbounded query. -/
theorem c6_gap_marker_roundtrip_inert_witness :
    ((⟨⟨⟨2024, 3, 15⟩, 43200500000⟩, Val.nan, Val.nan⟩ : record).temp = Val.nan ∧
      (⟨⟨2024, 3, 15⟩, 43200500000⟩ : DateTime).Valid) ∧
    parseLine (formatRecord ⟨⟨⟨2024, 3, 15⟩, 43200500000⟩, Val.nan, Val.nan⟩)
        none none =
      some ⟨truncToSecond ⟨⟨2024, 3, 15⟩, 43200500000⟩, Val.nan, Val.nan⟩ :=
  ⟨⟨rfl, by decide⟩,
    (c6_gap_marker_roundtrip_inert ⟨⟨⟨2024, 3, 15⟩, 43200500000⟩, Val.nan, Val.nan⟩
      rfl rfl (by decide) (by decide) (by decide) none none rfl rfl).1⟩

/-! ### C4: malformed rows are skipped, never aborting the read -/

/-- C4: reading a shard never aborts — its result is exactly the fold of the
per-row parser, so a row failing to parse (wrong field count, bad timestamp,
non-numeric float) is skipped; in particular a shard holding one malformed
row between two valid in-range rows yields exactly those two samples, in
order. -/
theorem c4_malformed_row_skipped (dateStart dateEnd : Option DateTime)
    (lines : List String) (bad good1 good2 : String) (r1 r2 : record)
    (hbad : parseLine bad dateStart dateEnd = none)
    (h1 : parseLine good1 dateStart dateEnd = some r1)
    (h2 : parseLine good2 dateStart dateEnd = some r2) :
    (readRecords lines dateStart dateEnd).recordList =
      (lines.filterMap fun line => parseLine line dateStart dateEnd) ∧
    (readRecords [good1, bad, good2] dateStart dateEnd).recordList = [r1, r2] := by
  refine ⟨readRecords_recordList lines dateStart dateEnd, ?_⟩
  rw [readRecords_recordList]
  simp [List.filterMap_cons, hbad, h1, h2]

/-- C4 witness: the spec's malformed row between two valid rows. -/
theorem c4_malformed_row_skipped_witness :
    (parseLine "2024-01-01 10:00:00 notanumber 50.0" none none = none ∧
     parseLine "2024-01-01 09:00:00 21 50" none none =
       some ⟨⟨⟨2024, 1, 1⟩, 32400000000⟩, Val.fin 21, Val.fin 50⟩ ∧
     parseLine "2024-01-01 10:30:00 22 51" none none =
       some ⟨⟨⟨2024, 1, 1⟩, 37800000000⟩, Val.fin 22, Val.fin 51⟩) ∧
    (readRecords ["2024-01-01 09:00:00 21 50", "2024-01-01 10:00:00 notanumber 50.0",
        "2024-01-01 10:30:00 22 51"] none none).recordList =
      [⟨⟨⟨2024, 1, 1⟩, 32400000000⟩, Val.fin 21, Val.fin 50⟩,
       ⟨⟨⟨2024, 1, 1⟩, 37800000000⟩, Val.fin 22, Val.fin 51⟩] :=
  ⟨⟨by decide, by decide, by decide⟩,
    (c4_malformed_row_skipped none none []
      "2024-01-01 10:00:00 notanumber 50.0" "2024-01-01 09:00:00 21 50"
      "2024-01-01 10:30:00 22 51"
      ⟨⟨⟨2024, 1, 1⟩, 32400000000⟩, Val.fin 21, Val.fin 50⟩
      ⟨⟨⟨2024, 1, 1⟩, 37800000000⟩, Val.fin 22, Val.fin 51⟩
      (by decide) (by decide) (by decide)).2⟩

/-! ### C2: shard enumeration and full-range query -/

/-- Irreflexivity of the code-point lexicographic order. -/
theorem strLtCl_irrefl : ∀ a : List Char, strLtCl a a = false := by
  intro a
  induction a with
  | nil => rfl
  | cons c cs ih =>
    unfold strLtCl
    simp [ih]

/-- Asymmetry of the code-point lexicographic order. -/
theorem strLtCl_asymm : ∀ a b : List Char, strLtCl a b = true → strLtCl b a = false := by
  intro a
  induction a with
  | nil =>
    intro b h
    cases b with
    | nil => simp [strLtCl] at h
    | cons y ys => rfl
  | cons x xs ih =>
    intro b h
    cases b with
    | nil => simp [strLtCl] at h
    | cons y ys =>
      unfold strLtCl at h ⊢
      by_cases h1 : x.toNat < y.toNat
      · rw [if_neg (by omega), if_pos h1]
      · by_cases h2 : y.toNat < x.toNat
        · rw [if_neg h1, if_pos h2] at h
          cases h
        · rw [if_neg h1, if_neg h2] at h
          rw [if_neg h2, if_neg h1]
          exact ih ys h

/-- A strictly lexicographically sorted name list is sorted for the sort's
total preorder. -/
theorem sorted_strLe_of_strict (names : List String)
    (h : names.Pairwise (fun a b => strLtCl a.data b.data = true)) :
    names.Sorted strLe := by
  apply List.Pairwise.imp ?_ h
  intro a b hab
  unfold strLe
  rw [strLtCl_asymm _ _ hab]
  rfl

/-- A strictly lexicographically sorted name list has no duplicates. -/
theorem nodup_of_strict (names : List String)
    (h : names.Pairwise (fun a b => strLtCl a.data b.data = true)) :
    names.Nodup := by
  refine h.imp ?_
  intro a b hab heq
  subst heq
  rw [strLtCl_irrefl] at hab
  cases hab

/-- Looking a name up in a file system with distinct names returns its
content. -/
theorem readFileLines_of_mem : ∀ (fs : List (String × List String))
    (name : String) (content : List String), (name, content) ∈ fs →
    (fs.map Prod.fst).Nodup → readFileLines fs name = content := by
  intro fs
  induction fs with
  | nil => intro name content h _; cases h
  | cons p rest ih =>
    intro name content hmem hnd
    obtain ⟨pn, pc⟩ := p
    rcases List.mem_cons.mp hmem with h | h
    · obtain ⟨h1, h2⟩ := Prod.mk.injEq .. ▸ h.symm
      subst h1
      subst h2
      unfold readFileLines
      simp [List.find?]
    · have hne : pn ≠ name := by
        intro he
        subst he
        have hmm : pn ∈ rest.map Prod.fst := List.mem_map.mpr ⟨(pn, content), h, rfl⟩
        exact (List.nodup_cons.mp hnd).1 hmm
      have hrec := ih name content h (List.nodup_cons.mp hnd).2
      unfold readFileLines at hrec ⊢
      simp only [List.find?]
      rw [show ((pn, pc).1 == name) = false from beq_eq_false_iff_ne.mpr hne]
      exact hrec

/-- The record list accumulated by the `getRecords` fold over a name
list. -/
theorem getRecords_foldl_names (fs : List (String × List String))
    (s e : Option DateTime) :
    ∀ (names : List String) (acc : records),
      (names.foldl (getRecordsStep fs s e) acc).recordList =
        acc.recordList ++
          (names.map fun n =>
            (readRecords (readFileLines fs n) s e).recordList).flatten := by
  intro names
  induction names with
  | nil => intro acc; simp
  | cons n rest ih =>
    intro acc
    rw [List.foldl_cons, List.map_cons, List.flatten_cons, ih]
    unfold getRecordsStep
    by_cases hl : (readRecords (readFileLines fs n) s e).recordList.length = 0
    · rw [if_pos hl]
      rw [List.length_eq_zero] at hl
      rw [hl, List.nil_append]
    · rw [if_neg hl]
      show (acc.recordList ++ _) ++ _ = _
      rw [List.append_assoc]

/-- C2: with rotated shard names all carrying the record base name as a
prefix and strictly lexicographically sorted, plus the current (unsuffixed)
record file, `listRecordFiles` enumerates the rotated shards in
lexicographic order with the current file always last, and the unbounded
query returns exactly the concatenation of every shard's rows followed by
the current file's rows — no duplicates, no drops — hence in chronological
order whenever the appended samples were. -/
theorem c2_query_all_in_order (shards : List (String × List String))
    (cur : List String)
    (hpre : ∀ p ∈ shards, List.isPrefixOf recordBaseName.data p.1.data = true ∧
      p.1 ≠ recordBaseName)
    (hsorted : (shards.map Prod.fst).Pairwise
      (fun a b => strLtCl a.data b.data = true))
    (hparse : ∀ p ∈ shards, ∀ line ∈ p.2, (parseLine line none none).isSome = true)
    (hparseCur : ∀ line ∈ cur, (parseLine line none none).isSome = true)
    (hchron : ChronRecords
      ((shards.map fun p => p.2.filterMap
          (fun line => parseLine line none none)).flatten ++
        cur.filterMap (fun line => parseLine line none none))) :
    listRecordFiles ((shards ++ [(recordBaseName, cur)]).map Prod.fst) =
      shards.map Prod.fst ++ [recordBaseName] ∧
    (getRecords (shards ++ [(recordBaseName, cur)]) none none).recordList =
      (shards.map fun p => p.2.filterMap
          (fun line => parseLine line none none)).flatten ++
        cur.filterMap (fun line => parseLine line none none) ∧
    ChronRecords
      ((getRecords (shards ++ [(recordBaseName, cur)]) none none).recordList) := by
  have hnames : (shards ++ [(recordBaseName, cur)]).map Prod.fst =
      shards.map Prod.fst ++ [recordBaseName] := by simp
  have hfilter : (shards.map Prod.fst ++ [recordBaseName]).filter
      (fun n => List.isPrefixOf recordBaseName.data n.data && decide (n ≠ recordBaseName)) =
      shards.map Prod.fst := by
    rw [List.filter_append]
    rw [List.filter_eq_self.mpr (by
      intro a ha
      obtain ⟨p, hp, rfl⟩ := List.mem_map.mp ha
      simp [(hpre p hp).1, (hpre p hp).2])]
    rw [show List.filter
      (fun n => List.isPrefixOf recordBaseName.data n.data && decide (n ≠ recordBaseName))
      [recordBaseName] = [] from by decide]
    rw [List.append_nil]
  have hfiles : listRecordFiles ((shards ++ [(recordBaseName, cur)]).map Prod.fst) =
      shards.map Prod.fst ++ [recordBaseName] := by
    unfold listRecordFiles
    rw [hnames]
    show List.insertionSort strLe _ ++ [recordBaseName] = _
    rw [hfilter, List.Sorted.insertionSort_eq (sorted_strLe_of_strict _ hsorted)]
  have hnodup : ((shards ++ [(recordBaseName, cur)]).map Prod.fst).Nodup := by
    rw [hnames, List.nodup_append]
    refine ⟨nodup_of_strict _ hsorted, by simp, ?_⟩
    intro a ha hb
    obtain ⟨p, hp, rfl⟩ := List.mem_map.mp ha
    simp only [List.mem_singleton] at hb
    exact (hpre p hp).2 hb
  have hlook : ∀ p ∈ shards, readFileLines (shards ++ [(recordBaseName, cur)]) p.1 = p.2 := by
    intro p hp
    exact readFileLines_of_mem _ p.1 p.2
      (List.mem_append_left _ (by simpa using hp)) hnodup
  have hlookCur : readFileLines (shards ++ [(recordBaseName, cur)]) recordBaseName = cur :=
    readFileLines_of_mem _ _ _ (List.mem_append_right _ (by simp)) hnodup
  have hrl : (getRecords (shards ++ [(recordBaseName, cur)]) none none).recordList =
      (shards.map fun p => p.2.filterMap
          (fun line => parseLine line none none)).flatten ++
        cur.filterMap (fun line => parseLine line none none) := by
    unfold getRecords
    rw [hfiles, getRecords_foldl_names, List.map_append, List.flatten_append]
    have hshards : (shards.map Prod.fst).map
        (fun n => (readRecords (readFileLines (shards ++ [(recordBaseName, cur)]) n)
          none none).recordList) =
        shards.map (fun p => p.2.filterMap (fun line => parseLine line none none)) := by
      rw [List.map_map]
      apply List.map_congr_left
      intro p hp
      show (readRecords (readFileLines _ p.1) none none).recordList = _
      rw [hlook p hp, readRecords_recordList]
    rw [hshards]
    rw [show ([recordBaseName].map
        (fun n => (readRecords (readFileLines (shards ++ [(recordBaseName, cur)]) n)
          none none).recordList)).flatten =
        cur.filterMap (fun line => parseLine line none none) from by
      rw [List.map_cons, List.map_nil, List.flatten_cons, List.flatten_nil,
        List.append_nil, hlookCur, readRecords_recordList]]
    rfl
  refine ⟨hfiles, hrl, ?_⟩
  rw [hrl]
  exact hchron

/-- C2 witness: two rotated shards plus the current file, one valid row
each. -/
theorem c2_query_all_in_order_witness :
    ((∀ p ∈ [("piDhtBot.rec.2024-01-01", ["2024-01-01 00:00:00 1 2"]),
        ("piDhtBot.rec.2024-01-02", ["2024-01-02 00:00:00 3 4"])],
      List.isPrefixOf recordBaseName.data p.1.data = true ∧ p.1 ≠ recordBaseName) ∧
     ([("piDhtBot.rec.2024-01-01", ["2024-01-01 00:00:00 1 2"]),
        ("piDhtBot.rec.2024-01-02", ["2024-01-02 00:00:00 3 4"])].map Prod.fst).Pairwise
        (fun a b => strLtCl a.data b.data = true)) ∧
    (getRecords ([("piDhtBot.rec.2024-01-01", ["2024-01-01 00:00:00 1 2"]),
        ("piDhtBot.rec.2024-01-02", ["2024-01-02 00:00:00 3 4"])] ++
        [(recordBaseName, ["2024-01-03 00:00:00 5 6"])]) none none).recordList =
      ([("piDhtBot.rec.2024-01-01", ["2024-01-01 00:00:00 1 2"]),
        ("piDhtBot.rec.2024-01-02", ["2024-01-02 00:00:00 3 4"])].map fun p =>
          p.2.filterMap (fun line => parseLine line none none)).flatten ++
        ["2024-01-03 00:00:00 5 6"].filterMap (fun line => parseLine line none none) :=
  ⟨⟨by decide, by decide⟩,
    (c2_query_all_in_order
      [("piDhtBot.rec.2024-01-01", ["2024-01-01 00:00:00 1 2"]),
       ("piDhtBot.rec.2024-01-02", ["2024-01-02 00:00:00 3 4"])]
      ["2024-01-03 00:00:00 5 6"]
      (by decide) (by decide) (by decide) (by decide) (by decide)).2.1⟩

/-! ### C10: a query hitting only gap markers -/

/-- The degenerate statistics absorb any further merge: no value is above
`+inf` or below `-inf`. -/
theorem degenerate_absorbs (other : recordStat) :
    degenerateStat.updateWithRecordStat other = degenerateStat := by
  unfold recordStat.updateWithRecordStat
  rw [updateWithValue_eq, updateWithValue_eq]
  have h1 : ∀ v, Val.ltb v Val.negInf = false := by intro v; cases v <;> rfl
  have h2 : ∀ v, Val.ltb Val.posInf v = false := by intro v; cases v <;> rfl
  simp [degenerateStat, h1, h2]

/-- Merging a freshly initialised statistics into a freshly initialised one
produces the degenerate value (the C10 corruption). -/
theorem init_merge_init :
    recordStat.init.updateWithRecordStat recordStat.init = degenerateStat := by decide

/-- A shard read whose rows are all gap markers leaves its statistics at the
initial value. -/
theorem readRecords_stats_nan (lines : List String) (s e : Option DateTime)
    (h : ∀ r ∈ (readRecords lines s e).recordList, r.temp = Val.nan ∧ r.hum = Val.nan) :
    (readRecords lines s e).tempStat = recordStat.init ∧
    (readRecords lines s e).humStat = recordStat.init := by
  rw [readRecords_eq] at h ⊢
  rw [buildRecords_recordList] at h
  rw [buildRecords_tempStat, buildRecords_humStat]
  constructor
  · apply statOf_all_nan
    intro p hp
    obtain ⟨r, hr, rfl⟩ := List.mem_map.mp hp
    exact (h r hr).1
  · apply statOf_all_nan
    intro p hp
    obtain ⟨r, hr, rfl⟩ := List.mem_map.mp hp
    exact (h r hr).2

/-- Invariant of the `getRecords` fold: the accumulator is empty with
initial statistics, non-empty (so far all gap markers) with the degenerate
statistics, or contains some non-gap record. -/
theorem getRecords_fold_invariant (fs : List (String × List String))
    (s e : Option DateTime) :
    ∀ (names : List String) (acc : records),
      ((acc.recordList = [] ∧ acc.tempStat = recordStat.init ∧
          acc.humStat = recordStat.init) ∨
        (acc.recordList ≠ [] ∧ acc.tempStat = degenerateStat ∧
          acc.humStat = degenerateStat) ∨
        (∃ r ∈ acc.recordList, ¬(r.temp = Val.nan ∧ r.hum = Val.nan))) →
      (((names.foldl (getRecordsStep fs s e) acc).recordList = [] ∧
          (names.foldl (getRecordsStep fs s e) acc).tempStat = recordStat.init ∧
          (names.foldl (getRecordsStep fs s e) acc).humStat = recordStat.init) ∨
        ((names.foldl (getRecordsStep fs s e) acc).recordList ≠ [] ∧
          (names.foldl (getRecordsStep fs s e) acc).tempStat = degenerateStat ∧
          (names.foldl (getRecordsStep fs s e) acc).humStat = degenerateStat) ∨
        (∃ r ∈ (names.foldl (getRecordsStep fs s e) acc).recordList,
          ¬(r.temp = Val.nan ∧ r.hum = Val.nan))) := by
  intro names
  induction names with
  | nil => intro acc h; exact h
  | cons n rest ih =>
    intro acc h
    rw [List.foldl_cons]
    apply ih
    unfold getRecordsStep
    by_cases hl : (readRecords (readFileLines fs n) s e).recordList.length = 0
    · rw [if_pos hl]
      exact h
    · rw [if_neg hl]
      have hlne : (readRecords (readFileLines fs n) s e).recordList ≠ [] := by
        intro hh
        rw [hh] at hl
        exact hl rfl
      by_cases hall : ∀ r ∈ (readRecords (readFileLines fs n) s e).recordList,
          r.temp = Val.nan ∧ r.hum = Val.nan
      · obtain ⟨ht, hh⟩ := readRecords_stats_nan _ s e hall
        rcases h with ⟨h1, h2, h3⟩ | ⟨h1, h2, h3⟩ | ⟨r, hr, hrn⟩
        · refine Or.inr (Or.inl ⟨?_, ?_, ?_⟩)
          · show acc.recordList ++ _ ≠ []
            rw [h1, List.nil_append]
            exact hlne
          · show acc.tempStat.updateWithRecordStat _ = _
            rw [h2, ht]
            exact init_merge_init
          · show acc.humStat.updateWithRecordStat _ = _
            rw [h3, hh]
            exact init_merge_init
        · refine Or.inr (Or.inl ⟨?_, ?_, ?_⟩)
          · show acc.recordList ++ _ ≠ []
            intro hcontra
            exact h1 (List.append_eq_nil.mp hcontra).1
          · show acc.tempStat.updateWithRecordStat _ = _
            rw [h2]
            exact degenerate_absorbs _
          · show acc.humStat.updateWithRecordStat _ = _
            rw [h3]
            exact degenerate_absorbs _
        · refine Or.inr (Or.inr ⟨r, ?_, hrn⟩)
          show r ∈ acc.recordList ++ _
          exact List.mem_append_left _ hr
      · push_neg at hall
        obtain ⟨r, hr, hrn⟩ := hall
        rcases h with ⟨h1, h2, h3⟩ | ⟨h1, h2, h3⟩ | ⟨r', hr', hrn'⟩
        · refine Or.inr (Or.inr ⟨r, List.mem_append_right _ hr, ?_⟩)
          intro hc
          exact hrn hc.1 hc.2
        · refine Or.inr (Or.inl ⟨?_, ?_, ?_⟩)
          · show acc.recordList ++ _ ≠ []
            intro hcontra
            exact h1 (List.append_eq_nil.mp hcontra).1
          · show acc.tempStat.updateWithRecordStat _ = _
            rw [h2]
            exact degenerate_absorbs _
          · show acc.humStat.updateWithRecordStat _ = _
            rw [h3]
            exact degenerate_absorbs _
        · refine Or.inr (Or.inr ⟨r', List.mem_append_left _ hr', hrn'⟩)

/-- C10 counterexample: a query whose result is non-empty but all gap
markers does not leave the statistics at their initial values
(`minValue = +inf`, `maxValue = -inf`): the per-shard initial statistics get
merged through `updateWithRecordStat`, which swaps the sentinels. -/
theorem c10_initial_stats_cex :
    ((getRecords [(recordBaseName, ["2024-01-01 10:00:00 nan nan"])]
        none none).recordList ≠ [] ∧
      ∀ r ∈ (getRecords [(recordBaseName, ["2024-01-01 10:00:00 nan nan"])]
        none none).recordList, r.temp = Val.nan ∧ r.hum = Val.nan) ∧
    (getRecords [(recordBaseName, ["2024-01-01 10:00:00 nan nan"])]
        none none).tempStat ≠ recordStat.init ∧
    (getRecords [(recordBaseName, ["2024-01-01 10:00:00 nan nan"])]
        none none).tempStat.minValue = Val.negInf :=
  ⟨⟨by decide, by decide⟩, by decide, by decide⟩

/-- C10 amended: a query returning a non-empty record list consisting only
of gap markers does not report `No data`: the record list is reported, but
the statistics are the degenerate `minValue = -inf`, `maxValue = +inf`,
timestamps `None` (not the initial values), and the plot path proceeds to
render and caption with exactly those degenerate statistics. -/
theorem c10_nan_only_query (fs : List (String × List String))
    (s e : Option DateTime)
    (hne : (getRecords fs s e).recordList ≠ [])
    (hnan : ∀ r ∈ (getRecords fs s e).recordList,
      r.temp = Val.nan ∧ r.hum = Val.nan) :
    (getRecords fs s e).tempStat = degenerateStat ∧
    (getRecords fs s e).humStat = degenerateStat ∧
    (∃ r0 rest, (getRecords fs s e).recordList = r0 :: rest ∧
      plot fs s e = [Effect.logInfo, Effect.replyPlotting s e,
        Effect.savePlotImage (r0 :: rest),
        Effect.replyPhoto r0.ts (rest.getLastD r0).ts degenerateStat degenerateStat,
        Effect.deletePlotImage]) := by
  have hinv := getRecords_fold_invariant fs s e
    (listRecordFiles (fs.map Prod.fst)) records.init
    (Or.inl ⟨rfl, rfl, rfl⟩)
  rw [show (listRecordFiles (fs.map Prod.fst)).foldl (getRecordsStep fs s e)
      records.init = getRecords fs s e from rfl] at hinv
  rcases hinv with ⟨h1, -, -⟩ | ⟨-, h2, h3⟩ | ⟨r, hr, hrn⟩
  · exact absurd h1 hne
  · refine ⟨h2, h3, ?_⟩
    obtain ⟨r0, rest, hcons⟩ := List.exists_cons_of_ne_nil hne
    refine ⟨r0, rest, hcons, ?_⟩
    unfold plot
    rw [if_neg (by
      rw [hcons]
      simp)]
    rw [show (getRecords fs s e).recordList = r0 :: rest from hcons]
    rw [h2, h3]
    rfl
  · exact absurd ⟨(hnan r hr).1, (hnan r hr).2⟩ hrn

/-- C10 witness: the amended theorem on a store holding a single gap-marker
row. -/
theorem c10_nan_only_query_witness :
    ((getRecords [(recordBaseName, ["2024-01-01 10:00:00 nan nan"])]
        none none).recordList ≠ [] ∧
      ∀ r ∈ (getRecords [(recordBaseName, ["2024-01-01 10:00:00 nan nan"])]
        none none).recordList, r.temp = Val.nan ∧ r.hum = Val.nan) ∧
    ((getRecords [(recordBaseName, ["2024-01-01 10:00:00 nan nan"])]
        none none).tempStat = degenerateStat ∧
      (getRecords [(recordBaseName, ["2024-01-01 10:00:00 nan nan"])]
        none none).humStat = degenerateStat) :=
  ⟨⟨by decide, by decide⟩,
    ⟨(c10_nan_only_query [(recordBaseName, ["2024-01-01 10:00:00 nan nan"])]
        none none (by decide) (by decide)).1,
     (c10_nan_only_query [(recordBaseName, ["2024-01-01 10:00:00 nan nan"])]
        none none (by decide) (by decide)).2.1⟩⟩

end PiDhtBot
